import Mathlib

/-!
Shallow embedding of the bank_statement_parser repository (src/parsers, src/services)
and proofs about the claims of its specification.

Modelling conventions:
* Python `float` values are modelled by `ℚ` (all amounts in the source are decimal
  strings with two fractional digits, which ℚ represents exactly).
* Python strings are Lean `String`s; character-level scanning works on `List Char`.
* Python `float(s)` is modelled by `pyFloat`, covering the decimal-literal fragment
  of Python's float grammar (optional sign, digits, optional fraction); exotic forms
  (exponents, underscores, `inf`, `nan`) are outside every call site's input language
  and are treated as parse failures.
* `re` patterns are compiled by hand into deterministic scanners.  Each scanner is
  annotated with the pattern it implements; the patterns used by the code admit no
  observable backtracking except where noted (the Capitec space-grouped amount
  pattern), and that backtracking is implemented explicitly.
* Fallible Python code (exceptions) returns `Option`.
-/

namespace BankParser

/-! ### Character classes and basic string utilities -/

/-- Python's `\s` class for `re` on ASCII text: space, tab, newline, carriage
return, vertical tab, form feed.  Also the class stripped by `str.strip()`. -/
def isPyWs (c : Char) : Bool :=
  c = ' ' || c = '\t' || c = '\n' || c = '\r' || c = '\x0b' || c = '\x0c'

/-- Python's `\w` word-character class (ASCII fragment): letters, digits, underscore. -/
def isWordChar (c : Char) : Bool :=
  c.isAlphanum || c = '_'

/-- `str.strip()`: remove leading and trailing whitespace. -/
def pyStrip (cs : List Char) : List Char :=
  ((cs.dropWhile isPyWs).reverse.dropWhile isPyWs).reverse

/-- `s.replace("Cr", "")`: remove every (left-to-right, non-overlapping)
occurrence of the two-character substring `Cr`. -/
def removeCr : List Char → List Char
  | [] => []
  | 'C' :: 'r' :: rest => removeCr rest
  | c :: rest => c :: removeCr rest

/-- State machine for `re.sub(r"-\s+", "-", s)`: every `-` followed by a
nonempty whitespace run is replaced by `-` (scanning resumes after the run; the
emitted `-` is replacement text and is not rescanned).  Encoded structurally:
after emitting a `-` the `skipping` flag drops the following whitespace run —
dropping an empty run (a `-` not followed by whitespace, where the regex does
not match) emits the same output as the regex substitution. -/
def smw (skipping : Bool) : List Char → List Char
  | [] => []
  | c :: rest =>
    if skipping && isPyWs c then smw true rest
    else if c = '-' then '-' :: smw true rest
    else c :: smw false rest

/-- `re.sub(r"-\s+", "-", s)` (utils.py line 99). -/
def subMinusWs (cs : List Char) : List Char := smw false cs

/-- Numeric value of a digit string (most significant first). -/
def digitsVal (cs : List Char) : ℕ :=
  cs.foldl (fun a c => 10 * a + (c.toNat - 48)) 0

/-- Core of `float(s)` on a sign-stripped string: `digits`, `digits.digits?` or
`.digits` (no exponent — see module conventions). -/
def pyFloatCore (cs : List Char) : Option ℚ :=
  let ip := cs.takeWhile Char.isDigit
  let rest := cs.dropWhile Char.isDigit
  match rest with
  | [] => if ip.isEmpty then none else some (digitsVal ip : ℚ)
  | '.' :: rest2 =>
    let fp := rest2.takeWhile Char.isDigit
    let rest3 := rest2.dropWhile Char.isDigit
    if rest3.isEmpty then
      if ip.isEmpty && fp.isEmpty then none
      else some ((digitsVal ip : ℚ) + (digitsVal fp : ℚ) / (10 : ℚ) ^ fp.length)
    else none
  | _ => none

/-- Python `float(s)` on the decimal-literal fragment: strip whitespace, optional
sign, then `pyFloatCore`.  `none` models `ValueError`. -/
def pyFloat (cs : List Char) : Option ℚ :=
  let t := pyStrip cs
  match t with
  | '-' :: r => (pyFloatCore r).map Neg.neg
  | '+' :: r => pyFloatCore r
  | _ => pyFloatCore t

/-- `str.zfill(width)`: left-pad with `'0'` to `width`, keeping a leading sign. -/
def zfill (width : ℕ) (s : String) : String :=
  let cs := s.data
  if width ≤ cs.length then s
  else
    match cs with
    | c :: rest =>
      if c = '+' ∨ c = '-' then ⟨c :: (List.replicate (width - cs.length) '0' ++ rest)⟩
      else ⟨List.replicate (width - cs.length) '0' ++ cs⟩
    | [] => ⟨List.replicate width '0'⟩

/-! ### src/parsers/utils.py -/

/-- `MONTH_MAP` (src/parsers/utils.py lines 8-12). -/
def MONTH_MAP : List (String × String) :=
  [("jan", "01"), ("feb", "02"), ("mar", "03"), ("apr", "04"),
   ("may", "05"), ("jun", "06"), ("jul", "07"), ("aug", "08"),
   ("sep", "09"), ("oct", "10"), ("nov", "11"), ("dec", "12")]

/-- `parse_date_dd_mm_yyyy` (utils.py line 45): identity. -/
def parse_date_dd_mm_yyyy (date_str : String) : String := date_str

/-- `parse_date_yyyy_mm_dd` (utils.py line 50): reorder the `/`-separated parts. -/
def parse_date_yyyy_mm_dd (date_str : String) : String :=
  let parts := date_str.splitOn "/"
  (parts.getD 2 "") ++ "/" ++ (parts.getD 1 "") ++ "/" ++ (parts.getD 0 "")

/-- `parse_date_dd_mmm_yy` (utils.py line 56). -/
def parse_date_dd_mmm_yy (day month year : String) : String :=
  let month_num := (MONTH_MAP.lookup month.toLower).getD "01"
  zfill 2 day ++ "/" ++ month_num ++ "/20" ++ year

/-- `parse_date_dd_mmm_yyyy` (utils.py line 62). -/
def parse_date_dd_mmm_yyyy (day month year : String) : String :=
  let month_num := (MONTH_MAP.lookup month.toLower).getD "01"
  zfill 2 day ++ "/" ++ month_num ++ "/" ++ year

/-- `parse_date_dd_mmm` (utils.py line 68): no zero fill on the day. -/
def parse_date_dd_mmm (day month year : String) : String :=
  let month_num := (MONTH_MAP.lookup month.toLower).getD "01"
  day ++ "/" ++ month_num ++ "/" ++ year

/-- `parse_date_mmm_dd_yyyy` (utils.py line 74). -/
def parse_date_mmm_dd_yyyy (month day year : String) : String :=
  let month_num := (MONTH_MAP.lookup month.toLower).getD "01"
  zfill 2 day ++ "/" ++ month_num ++ "/" ++ year

/-- The character pipeline of `clean_amount` (utils.py lines 91-99): optional
space and comma removal, removal of every `R` and then of every `Cr` (the latter
a no-op after the former), strip, and the `-\s+ → -` substitution. -/
def cleanedAmountChars (amount_str : String) (remove_spaces remove_commas : Bool) : List Char :=
  let c := amount_str.data
  let c := if remove_spaces then c.filter (· != ' ') else c
  let c := if remove_commas then c.filter (· != ',') else c
  let c := removeCr (c.filter (· != 'R'))
  subMinusWs (pyStrip c)

/-- `clean_amount` (utils.py lines 80-104): the `try/except ValueError` returns
the safe zero sentinel when `float` fails.  The Python defaults are
`remove_spaces=True, remove_commas=True`; call sites use the defaults. -/
def clean_amount (amount_str : String) (remove_spaces remove_commas : Bool) : ℚ :=
  (pyFloat (cleanedAmountChars amount_str remove_spaces remove_commas)).getD 0

/-- Whether a character list ends with `Cr` (`str.endswith("Cr")`). -/
def endsWithCr (cs : List Char) : Bool :=
  ['C', 'r'].isSuffixOf cs

/-- The cleaned token of `parse_amount_with_cr` (utils.py line 118):
`amount_str.replace("Cr", "").replace(",", "").strip()` applied to the
already-stripped input. -/
def crCleanedChars (amount_str : String) : List Char :=
  pyStrip ((removeCr (pyStrip amount_str.data)).filter (· != ','))

/-- `parse_amount_with_cr` (utils.py lines 107-124). -/
def parse_amount_with_cr (amount_str : String) : ℚ × Bool :=
  let t := pyStrip amount_str.data
  let is_credit := endsWithCr t
  match pyFloat (crCleanedChars amount_str) with
  | some v => (|v|, is_credit)
  | none => (0, false)

/-- `determine_debit_credit_from_balance` (utils.py lines 160-185). -/
def determine_debit_credit_from_balance (current_balance : ℚ)
    (previous_balance : Option ℚ) (amount : Option ℚ) : ℚ × ℚ :=
  match previous_balance with
  | none =>
    match amount with
    | some a => if a < 0 then (|a|, 0) else (0, a)
    | none => (0, 0)
  | some p =>
    let diff := current_balance - p
    if diff < 0 then (|diff|, 0) else (0, diff)

/-- A transaction record: the dictionary built by `create_transaction_row`
(utils.py lines 188-213). -/
structure Row where
  Date : String
  Description : String
  Debit : ℚ
  Credit : ℚ
  Balance : ℚ
deriving DecidableEq, Repr

/-- `create_transaction_row` (utils.py lines 188-213). -/
def create_transaction_row (date description : String) (debit credit balance : ℚ) : Row :=
  ⟨date, description, debit, credit, balance⟩

/-! ### src/parsers/base.py and src/parsers/__init__.py — format detection -/

/-- Python substring containment `sub in hay`. -/
def containsSub (hay sub : List Char) : Bool :=
  sub.isPrefixOf hay ||
    match hay with
    | [] => false
    | _ :: t => containsSub t sub

/-- The class-level data of a parser class: `BANK_NAME`, `BANK_ID`,
`DETECTION_KEYWORDS` (base.py lines 31-33 and each subclass header). -/
structure BankFormat where
  BANK_NAME : String
  BANK_ID : String
  DETECTION_KEYWORDS : List String
deriving DecidableEq, Repr

/-- `BaseBankParser.can_parse` (base.py lines 72-76): some keyword occurs in the
lowercased text. -/
def can_parse (p : BankFormat) (text : String) : Bool :=
  p.DETECTION_KEYWORDS.any fun keyword =>
    containsSub (text.data.map Char.toLower) keyword.data

def TymeBankInfo : BankFormat := ⟨"TymeBank", "tymebank", ["tymebank", "tyme bank"]⟩

def AfricanBankInfo : BankFormat := ⟨"African Bank", "african_bank", ["african bank", "africanbank"]⟩

def HBZInfo : BankFormat := ⟨"HBZ Bank", "hbz_bank", ["hbz bank"]⟩

def DiscoveryInfo : BankFormat := ⟨"Discovery Bank", "discovery_bank", ["discovery"]⟩

def InvestecInfo : BankFormat := ⟨"Investec", "investec", ["investec"]⟩

def BidvestInfo : BankFormat := ⟨"Bidvest Bank", "bidvest", ["bidvest"]⟩

def ABSAInfo : BankFormat := ⟨"ABSA", "absa", ["absa"]⟩

def NedbankInfo : BankFormat := ⟨"Nedbank", "nedbank", ["nedbank"]⟩

def StandardBankInfo : BankFormat := ⟨"Standard Bank", "standard_bank", ["standard bank"]⟩

def FNBInfo : BankFormat := ⟨"FNB", "fnb", ["fnb", "first national bank"]⟩

def CapitecInfo : BankFormat := ⟨"Capitec", "capitec", ["capitec"]⟩

/-- `PARSER_REGISTRY` (src/parsers/__init__.py lines 23-35); order matters for
detection. -/
def PARSER_REGISTRY : List BankFormat :=
  [TymeBankInfo, AfricanBankInfo, HBZInfo, DiscoveryInfo, InvestecInfo,
   BidvestInfo, ABSAInfo, NedbankInfo, StandardBankInfo, FNBInfo, CapitecInfo]

/-- The registry loop of `detect_bank` (src/parsers/__init__.py lines 61-64):
return the first parser whose `can_parse` accepts the first-page text. -/
def detectFrom : List BankFormat → String → Option String
  | [], _ => none
  | p :: rest, first => if can_parse p first then some p.BANK_ID else detectFrom rest first

/-- `detect_bank` (src/parsers/__init__.py lines 46-67).  A document is its list
of page texts (binary-to-text conversion is the external collaborator); only the
first page's text is inspected, and an empty document yields `none`. -/
def detect_bank (pages : List String) : Option String :=
  match pages with
  | [] => none
  | first :: _ => detectFrom PARSER_REGISTRY first

theorem detectFrom_eq_none_iff (l : List BankFormat) (first : String) :
    detectFrom l first = none ↔ ∀ p ∈ l, can_parse p first = false := by
  induction l with
  | nil => simp [detectFrom]
  | cons p rest ih =>
    by_cases h : can_parse p first = true
    · simp [detectFrom, h]
    · simp only [Bool.not_eq_true] at h
      simp [detectFrom, h, ih]

theorem detectFrom_eq_some_iff (l : List BankFormat) (first : String) (b : String) :
    detectFrom l first = some b ↔
      ∃ l1 p l2, l = l1 ++ p :: l2 ∧ (∀ q ∈ l1, can_parse q first = false) ∧
        can_parse p first = true ∧ b = p.BANK_ID := by
  induction l with
  | nil =>
    simp only [detectFrom]
    constructor
    · intro h; exact absurd h (by simp)
    · rintro ⟨l1, p, l2, heq, -⟩
      exact absurd heq (by simp)
  | cons p rest ih =>
    by_cases h : can_parse p first = true
    · simp only [detectFrom, h, if_pos, Option.some.injEq]
      constructor
      · intro hb
        exact ⟨[], p, rest, rfl, by simp, h, hb.symm⟩
      · rintro ⟨l1, q, l2, heq, h1, h2, rfl⟩
        cases l1 with
        | nil =>
          simp only [List.nil_append, List.cons.injEq] at heq
          rw [heq.1]
        | cons a l1 =>
          simp only [List.cons_append, List.cons.injEq] at heq
          rw [← heq.1] at h1
          have := h1 p (by simp)
          rw [this] at h
          exact absurd h (by simp)
    · have hf : can_parse p first = false := by
        simpa using h
      simp only [detectFrom, hf, Bool.false_eq_true, if_false, ih]
      constructor
      · rintro ⟨l1, q, l2, heq, h1, h2, rfl⟩
        refine ⟨p :: l1, q, l2, by rw [heq]; rfl, ?_, h2, rfl⟩
        intro r hr
        rcases List.mem_cons.mp hr with hr | hr
        · rw [hr]; exact hf
        · exact h1 r hr
      · rintro ⟨l1, q, l2, heq, h1, h2, rfl⟩
        cases l1 with
        | nil =>
          simp only [List.nil_append, List.cons.injEq] at heq
          rw [← heq.1] at h2
          exact absurd h2 h
        | cons a l1 =>
          simp only [List.cons_append, List.cons.injEq] at heq
          exact ⟨l1, q, l2, heq.2, fun r hr => h1 r (by simp [hr]), h2, rfl⟩

/-- **C4**: detection inspects only the first page (later pages never change the
result), returns the `BANK_ID` of the first registry parser — in the fixed order
TymeBank, African Bank, HBZ, Discovery, Investec, Bidvest, ABSA, Nedbank,
Standard Bank, FNB, Capitec — whose case-insensitive keyword signature occurs in
the first-page text, and returns `none` with no fallback when no signature
matches (also for an empty document). -/
theorem detect_bank_spec :
    detect_bank [] = none
  ∧ (∀ (p0 : String) (r r' : List String), detect_bank (p0 :: r) = detect_bank (p0 :: r'))
  ∧ (∀ (p0 : String) (rest : List String),
      detect_bank (p0 :: rest) =
        if can_parse TymeBankInfo p0 then some "tymebank"
        else if can_parse AfricanBankInfo p0 then some "african_bank"
        else if can_parse HBZInfo p0 then some "hbz_bank"
        else if can_parse DiscoveryInfo p0 then some "discovery_bank"
        else if can_parse InvestecInfo p0 then some "investec"
        else if can_parse BidvestInfo p0 then some "bidvest"
        else if can_parse ABSAInfo p0 then some "absa"
        else if can_parse NedbankInfo p0 then some "nedbank"
        else if can_parse StandardBankInfo p0 then some "standard_bank"
        else if can_parse FNBInfo p0 then some "fnb"
        else if can_parse CapitecInfo p0 then some "capitec"
        else none)
  ∧ (∀ (p0 : String) (rest : List String),
      detect_bank (p0 :: rest) = none ↔ ∀ p ∈ PARSER_REGISTRY, can_parse p p0 = false)
  ∧ (∀ (p0 : String) (rest : List String) (b : String),
      detect_bank (p0 :: rest) = some b ↔
        ∃ l1 p l2, PARSER_REGISTRY = l1 ++ p :: l2 ∧
          (∀ q ∈ l1, can_parse q p0 = false) ∧ can_parse p p0 = true ∧ b = p.BANK_ID) :=
  ⟨rfl,
   fun _ _ _ => rfl,
   fun _ _ => rfl,
   fun p0 _ => detectFrom_eq_none_iff PARSER_REGISTRY p0,
   fun p0 _ b => detectFrom_eq_some_iff PARSER_REGISTRY p0 b⟩

/-- Witness for `detect_bank_spec`: a first page mentioning Capitec is detected
as `capitec` regardless of later pages, and a page matching nothing yields
`none`. -/
theorem detect_bank_spec_witness :
    detect_bank ["Capitec Bank Statement", "page2"] =
      detect_bank ["Capitec Bank Statement", "another institution: Standard Bank"]
  ∧ (detect_bank ["quarterly report", "x"] = none ↔
      ∀ p ∈ PARSER_REGISTRY, can_parse p "quarterly report" = false) :=
  ⟨detect_bank_spec.2.1 "Capitec Bank Statement" ["page2"]
      ["another institution: Standard Bank"],
   detect_bank_spec.2.2.2.1 "quarterly report" ["x"]⟩

/-! ### `extract_year_from_text` (utils.py lines 127-157)

The function chains three `re.search` calls.  Each search is compiled to a
scanner over `List Char`; `re.search` semantics (leftmost start, then the
pattern's own backtracking order) is implemented directly.  For these patterns
the backtracking order collapses to deterministic scanning, noted per pattern.
-/

/-- Case-insensitive literal match of `pat` against a prefix of `cs`; returns
the remainder on success. -/
def matchCi : List Char → List Char → Option (List Char)
  | [], cs => some cs
  | _ :: _, [] => none
  | p :: ps, c :: cs => if c.toLower = p.toLower then matchCi ps cs else none

/-- The character class `[:\s]`. -/
def isColonWs (c : Char) : Bool := c = ':' || isPyWs c

/-- `20\d{2}` anchored at the start of `cs`: the four matched characters. -/
def year20At : List Char → Option (List Char)
  | '2' :: '0' :: d1 :: d2 :: _ =>
    if d1.isDigit && d2.isDigit then some ['2', '0', d1, d2] else none
  | _ => none

/-- The alternation `(?:statement\s*period|period)` anchored at the start of
`cs` (IGNORECASE): returns the remainder after the token.  The alternatives
start with distinct letters, so at most one matches at a given position; the
greedy `\s*` between the words cannot backtrack because `period` starts with a
letter. -/
def periodTokenAt (cs : List Char) : Option (List Char) :=
  match matchCi "statement".data cs with
  | some rest =>
    match matchCi "period".data (rest.dropWhile isPyWs) with
    | some r2 => some r2
    | none => matchCi "period".data cs
  | none => matchCi "period".data cs

/-- First `20\d{2}` before the next newline. -/
def yearNoNl : List Char → Option (List Char)
  | [] => none
  | c :: rest =>
    if c = '\n' then none
    else
      match year20At (c :: rest) with
      | some y => some y
      | none => yearNoNl rest

/-- The tail `[:\s]*.*?(20\d{2})` after the period token.  Under Python's
backtracking order (greedy `[:\s]*` tried longest first, then lazy `.*?`), the
captured year is the first `20\d{2}` at or after the end of the maximal `[:\s]`
run with no newline strictly between the run's end and the year: a year cannot
start inside the run (`2` is not in `[:\s]`), `.*?` cannot match a newline, and
a shorter `[:\s]*` choice only adds `[:\s]` characters to the `.*?` span, which
reaches no further year. -/
def tailYearSearch (rest : List Char) : Option (List Char) :=
  yearNoNl (rest.dropWhile isColonWs)

/-- `re.search(r"(?:statement\s*period|period)[:\s]*.*?(20\d{2})", text, re.IGNORECASE)`:
group 1 of the leftmost-start match. -/
def findPeriodYear : List Char → Option (List Char)
  | [] => none
  | c :: rest =>
    match periodTokenAt (c :: rest) with
    | some after =>
      match tailYearSearch after with
      | some y => some y
      | none => findPeriodYear rest
    | none => findPeriodYear rest

/-- The twelve full month names, in the source pattern's alternation order.  No
name is a prefix of another, so at most one matches at a given position. -/
def monthNames : List (List Char) :=
  ["january".data, "february".data, "march".data, "april".data, "may".data,
   "june".data, "july".data, "august".data, "september".data, "october".data,
   "november".data, "december".data]

/-- First alternative of `names` matching a prefix of `cs` (case-insensitive). -/
def matchFirstCi : List (List Char) → List Char → Option (List Char)
  | [], _ => none
  | n :: ns, cs =>
    match matchCi n cs with
    | some r => some r
    | none => matchFirstCi ns cs

/-- `\s+(20\d{2})` anchored at the start of `cs`: a nonempty whitespace run then
the year (the greedy `\s+` cannot backtrack because `2` is not whitespace). -/
def wsYear (cs : List Char) : Option (List Char) :=
  let run := cs.takeWhile isPyWs
  if run.isEmpty then none else year20At (cs.dropWhile isPyWs)

/-- `re.search(r"(?:January|...|December)\s+(20\d{2})", text, re.IGNORECASE)`:
group 1 of the leftmost-start match. -/
def findMonthYear : List Char → Option (List Char)
  | [] => none
  | c :: rest =>
    match matchFirstCi monthNames (c :: rest) with
    | some after =>
      match wsYear after with
      | some y => some y
      | none => findMonthYear rest
    | none => findMonthYear rest

/-- `re.search(r"\b(20\d{2})\b", text)`: the first `20\d{2}` token delimited by
word boundaries; `prev` is the character before the current position. -/
def findBareYear : Option Char → List Char → Option (List Char)
  | _, [] => none
  | prev, c :: rest =>
    let okLeft : Bool :=
      match prev with
      | none => true
      | some pc => !(isWordChar pc)
    let cand : Option (List Char) :=
      if okLeft then
        match year20At (c :: rest) with
        | some y =>
          match (c :: rest).drop 4 with
          | [] => some y
          | a :: _ => if isWordChar a then none else some y
        | none => none
      else none
    match cand with
    | some y => some y
    | none => findBareYear (some c) rest

/-- `extract_year_from_text` (utils.py lines 127-157).  `current_year` stands
for `datetime.now().strftime("%Y")`; every branch returns `some`, the declared
`Optional[str]` notwithstanding. -/
def extract_year_from_text (current_year : String) (text : String) : Option String :=
  match findPeriodYear text.data with
  | some y => some ⟨y⟩
  | none =>
    match findMonthYear text.data with
    | some y => some ⟨y⟩
    | none =>
      match findBareYear none text.data with
      | some y => some ⟨y⟩
      | none => some current_year

/-- Comparison definition following the claim's words for C5: the first year
search recognises only the full "statement period" phrase, not a bare
"period".  (The source pattern's alternation also accepts `period` alone.) -/
def statementPeriodTokenAtSpec (cs : List Char) : Option (List Char) :=
  match matchCi "statement".data cs with
  | some rest => matchCi "period".data (rest.dropWhile isPyWs)
  | none => none

/-- Comparison definition following the claim's words for C5: leftmost
"statement period" phrase followed (same line) by a `20xx` year. -/
def findStatementPeriodYearSpec : List Char → Option (List Char)
  | [] => none
  | c :: rest =>
    match statementPeriodTokenAtSpec (c :: rest) with
    | some after =>
      match tailYearSearch after with
      | some y => some y
      | none => findStatementPeriodYearSpec rest
    | none => findStatementPeriodYearSpec rest

/-! ### Theorems about the shared utilities -/

/-- **C3**: balance-delta inference.  With a previous balance `p`, the result is
`(|b − p|, 0)` when `b − p < 0` and `(0, b − p)` otherwise (any known amount is
ignored); with no previous balance and a known signed amount `a`, the result is
`(|a|, 0)` when `a < 0` and `(0, a)` otherwise; with neither, `(0, 0)`. -/
theorem determine_debit_credit_from_balance_spec :
    (∀ (b p : ℚ) (a : Option ℚ),
      determine_debit_credit_from_balance b (some p) a =
        if b - p < 0 then (|b - p|, 0) else (0, b - p))
  ∧ (∀ b a : ℚ,
      determine_debit_credit_from_balance b none (some a) =
        if a < 0 then (|a|, 0) else (0, a))
  ∧ (∀ b : ℚ, determine_debit_credit_from_balance b none none = (0, 0)) :=
  ⟨fun _ _ _ => rfl, fun _ _ => rfl, fun _ => rfl⟩

/-- **C10**: when the lowercased month token is not one of the twelve 3-letter
abbreviations of `MONTH_MAP`, every abbreviated-month date helper silently uses
`"01"` (January) as the month component, for any day and year strings. -/
theorem date_helpers_unknown_month_default (day month year : String)
    (h : MONTH_MAP.lookup month.toLower = none) :
    parse_date_dd_mmm_yy day month year = zfill 2 day ++ "/" ++ "01" ++ "/20" ++ year
  ∧ parse_date_dd_mmm_yyyy day month year = zfill 2 day ++ "/" ++ "01" ++ "/" ++ year
  ∧ parse_date_dd_mmm day month year = day ++ "/" ++ "01" ++ "/" ++ year
  ∧ parse_date_mmm_dd_yyyy month day year = zfill 2 day ++ "/" ++ "01" ++ "/" ++ year := by
  simp [parse_date_dd_mmm_yy, parse_date_dd_mmm_yyyy, parse_date_dd_mmm,
    parse_date_mmm_dd_yyyy, h]

/-- Witness for `date_helpers_unknown_month_default` at day `"5"`, month token
`"xyz"` (not an abbreviation), year `"99"`. -/
theorem date_helpers_unknown_month_default_witness :
    parse_date_dd_mmm_yy "5" "xyz" "99" = zfill 2 "5" ++ "/" ++ "01" ++ "/20" ++ "99"
  ∧ parse_date_dd_mmm_yyyy "5" "xyz" "99" = zfill 2 "5" ++ "/" ++ "01" ++ "/" ++ "99"
  ∧ parse_date_dd_mmm "5" "xyz" "99" = "5" ++ "/" ++ "01" ++ "/" ++ "99"
  ∧ parse_date_mmm_dd_yyyy "xyz" "5" "99" = zfill 2 "5" ++ "/" ++ "01" ++ "/" ++ "99" :=
  date_helpers_unknown_month_default "5" "xyz" "99" (by with_unfolding_all decide)

/-- **C9** (counterexample): the malformed token `"Cr"` ends with the textual
`Cr` marker, yet `parse_amount_with_cr` returns the sentinel `(0, false)` — the
is-credit flag is not set, refuting "flag set iff the token ends with `Cr`". -/
theorem parse_amount_with_cr_malformed_cr_token :
    parse_amount_with_cr "Cr" = (0, false)
  ∧ endsWithCr (pyStrip "Cr".data) = true := by
  constructor <;> decide

/-- **C9** (amended): amount normalization is total.  `clean_amount` returns the
parsed value when the cleaned token parses and the safe zero sentinel otherwise;
`parse_amount_with_cr` returns the absolute parsed value paired with the flag
"stripped token ends with `Cr`" when the cleaned token parses, `(0, false)`
otherwise, and its numeric component is never negative. -/
theorem amount_normalization_never_raises (s : String) (rs rc : Bool) :
    (pyFloat (cleanedAmountChars s rs rc) = none → clean_amount s rs rc = 0)
  ∧ (∀ v : ℚ, pyFloat (cleanedAmountChars s rs rc) = some v → clean_amount s rs rc = v)
  ∧ (pyFloat (crCleanedChars s) = none → parse_amount_with_cr s = (0, false))
  ∧ (∀ v : ℚ, pyFloat (crCleanedChars s) = some v →
      parse_amount_with_cr s = (|v|, endsWithCr (pyStrip s.data)))
  ∧ 0 ≤ (parse_amount_with_cr s).1 := by
  refine ⟨fun h => by simp [clean_amount, h],
          fun v h => by simp [clean_amount, h],
          fun h => by simp [parse_amount_with_cr, h],
          fun v h => by simp [parse_amount_with_cr, h],
          ?_⟩
  cases h : pyFloat (crCleanedChars s) with
  | none => simp [parse_amount_with_cr, h]
  | some v => simp [parse_amount_with_cr, h, abs_nonneg]

/-- Witness for `amount_normalization_never_raises`: a malformed token and a
well-formed `Cr`-suffixed token. -/
theorem amount_normalization_never_raises_witness :
    clean_amount "abc" true true = 0
  ∧ clean_amount "1,234.56" true true = 30864 / 25
  ∧ parse_amount_with_cr "abc" = (0, false)
  ∧ parse_amount_with_cr "1,234.56Cr" =
      (|(30864 / 25 : ℚ)|, endsWithCr (pyStrip "1,234.56Cr".data))
  ∧ 0 ≤ (parse_amount_with_cr "Cr").1 := by
  have h1 : pyFloat (cleanedAmountChars "abc" true true) = none := by decide
  have h2 : cleanedAmountChars "1,234.56" true true = ['1', '2', '3', '4', '.', '5', '6'] := by
    decide
  have h2v : pyFloat (cleanedAmountChars "1,234.56" true true) = some (30864 / 25) := by
    rw [h2]
    simp [pyFloat, pyFloatCore, pyStrip, digitsVal, isPyWs, List.takeWhile, List.dropWhile]
    norm_num
  have h3 : pyFloat (crCleanedChars "abc") = none := by decide
  have h4 : crCleanedChars "1,234.56Cr" = ['1', '2', '3', '4', '.', '5', '6'] := by decide
  have h4v : pyFloat (crCleanedChars "1,234.56Cr") = some (30864 / 25) := by
    rw [h4]
    simp [pyFloat, pyFloatCore, pyStrip, digitsVal, isPyWs, List.takeWhile, List.dropWhile]
    norm_num
  exact ⟨(amount_normalization_never_raises "abc" true true).1 h1,
    (amount_normalization_never_raises "1,234.56" true true).2.1 _ h2v,
    (amount_normalization_never_raises "abc" true true).2.2.1 h3,
    (amount_normalization_never_raises "1,234.56Cr" true true).2.2.2.1 _ h4v,
    (amount_normalization_never_raises "Cr" true true).2.2.2.2⟩

/-- **C5** (counterexample): the text `"period 2020 January 2019"` contains no
"statement period" phrase, and the month-name search finds `2019`, so the
claim's priority chain answers `2019`; the code answers `2020`, found after the
bare word `period`, which the first search's pattern also accepts. -/
theorem extract_year_period_counterexample :
    findStatementPeriodYearSpec "period 2020 January 2019".data = none
  ∧ findMonthYear "period 2020 January 2019".data = some ['2', '0', '1', '9']
  ∧ extract_year_from_text "2026" "period 2020 January 2019" = some "2020" :=
  ⟨by decide, by decide, by decide⟩

/-- **C5** (amended): year recovery follows the strict priority chain — the
period search (which accepts "statement period" or a bare "period") first,
then the full-month-name search, then the bare `20xx` token search, then the
current calendar year — and the result is never `None`. -/
theorem extract_year_from_text_priority (current_year text : String) :
    (∀ y, findPeriodYear text.data = some y →
      extract_year_from_text current_year text = some ⟨y⟩)
  ∧ (∀ y, findPeriodYear text.data = none → findMonthYear text.data = some y →
      extract_year_from_text current_year text = some ⟨y⟩)
  ∧ (∀ y, findPeriodYear text.data = none → findMonthYear text.data = none →
      findBareYear none text.data = some y →
      extract_year_from_text current_year text = some ⟨y⟩)
  ∧ (findPeriodYear text.data = none → findMonthYear text.data = none →
      findBareYear none text.data = none →
      extract_year_from_text current_year text = some current_year)
  ∧ (extract_year_from_text current_year text).isSome = true := by
  refine ⟨fun y h1 => by simp [extract_year_from_text, h1],
    fun y h1 h2 => by simp [extract_year_from_text, h1, h2],
    fun y h1 h2 h3 => by simp [extract_year_from_text, h1, h2, h3],
    fun h1 h2 h3 => by simp [extract_year_from_text, h1, h2, h3],
    ?_⟩
  unfold extract_year_from_text
  cases findPeriodYear text.data with
  | some y => rfl
  | none =>
    cases findMonthYear text.data with
    | some y => rfl
    | none =>
      cases findBareYear none text.data with
      | some y => rfl
      | none => rfl

/-- Witness for `extract_year_from_text_priority`: a statement-period text and a
yearless text. -/
theorem extract_year_from_text_priority_witness :
    extract_year_from_text "2026" "Statement Period: 2024" = some "2024"
  ∧ extract_year_from_text "2026" "no year here" = some "2026" :=
  ⟨(extract_year_from_text_priority "2026" "Statement Period: 2024").1
      ['2', '0', '2', '4'] (by decide),
   (extract_year_from_text_priority "2026" "no year here").2.2.2.1
      (by decide) (by decide) (by decide)⟩

/-! ### Line scanning combinators for the extractors

`re.findall` and `re.search` are compiled to scanners over `List Char`.  A
matcher `m` takes the text at the current position and returns
`(matched token, remainder)` on success.  The amount patterns of the three
modelled extractors admit no backtracking except the Capitec space-grouped
pattern, implemented explicitly below. -/

/-- `re.findall`: non-overlapping, leftmost matches, scanning resumes after each
match.  The fuel is the text length: every match of the patterns used here
consumes at least one character, so it never runs out before the text does. -/
def findAllAux (m : List Char → Option (List Char × List Char)) :
    ℕ → List Char → List (List Char)
  | 0, _ => []
  | _ + 1, [] => []
  | fuel + 1, c :: rest =>
    match m (c :: rest) with
    | some (tok, r) => tok :: findAllAux m fuel r
    | none => findAllAux m fuel rest

def findAll (m : List Char → Option (List Char × List Char)) (cs : List Char) :
    List (List Char) :=
  findAllAux m cs.length cs

/-- `re.search`: the start index and token of the leftmost match. -/
def searchStart (m : List Char → Option (List Char × List Char)) :
    List Char → Option (ℕ × List Char)
  | [] =>
    match m [] with
    | some (tok, _) => some (0, tok)
    | none => none
  | c :: rest =>
    match m (c :: rest) with
    | some (tok, _) => some (0, tok)
    | none => (searchStart m rest).map fun p => (p.1 + 1, p.2)

/-- The class `[\d,]`. -/
def isDigitComma (c : Char) : Bool := c.isDigit || c = ','

/-- The class `[\d\s]`. -/
def isDigitWs (c : Char) : Bool := c.isDigit || isPyWs c

/-- The class `[-\d,\s]`. -/
def isAmtClassCap (c : Char) : Bool := c.isDigit || c = ',' || c = '-' || isPyWs c

/-- `CLS+\.\d{2}` anchored at the start of `cs`.  The greedy `CLS+` cannot
backtrack because `.` is not in any of the classes used. -/
def matchClassAmount (cls : Char → Bool) (cs : List Char) :
    Option (List Char × List Char) :=
  let run := cs.takeWhile cls
  match cs.dropWhile cls with
  | '.' :: d1 :: d2 :: rest2 =>
    if run.isEmpty then none
    else if d1.isDigit && d2.isDigit then some (run ++ '.' :: d1 :: [d2], rest2)
    else none
  | _ => none

/-- `-?` prefix: with the minus first, else without (the fallback can only fail
again, since `-` is in none of the body classes — kept for fidelity). -/
def matchOptMinus (m : List Char → Option (List Char × List Char))
    (cs : List Char) : Option (List Char × List Char) :=
  match cs with
  | '-' :: rest =>
    match m rest with
    | some (tok, r) => some ('-' :: tok, r)
    | none => m cs
  | _ => m cs

/-- `\.\d{2}` anchored at the start. -/
def capTail : List Char → Option (List Char × List Char)
  | '.' :: d1 :: d2 :: rest =>
    if d1.isDigit && d2.isDigit then some (['.', d1, d2], rest) else none
  | _ => none

/-- `(?: \d{3})*\.\d{2}` with the star's greedy backtracking: prefer one more
group, else match the tail here. -/
def capGroups : List Char → Option (List Char × List Char)
  | ' ' :: d1 :: d2 :: d3 :: rest =>
    if d1.isDigit && d2.isDigit && d3.isDigit then
      match capGroups rest with
      | some (m, r) => some (' ' :: d1 :: d2 :: d3 :: m, r)
      | none => capTail (' ' :: d1 :: d2 :: d3 :: rest)
    else capTail (' ' :: d1 :: d2 :: d3 :: rest)
  | cs => capTail cs

/-- `\d{1,3}(?: \d{3})*\.\d{2}` anchored at the start: the `\d{1,3}` is greedy
and backtracks from three digits down to one (Capitec space-grouped amounts;
e.g. in `1234.56` the match is `234.56`, starting one character later). -/
def matchCapCore (cs : List Char) : Option (List Char × List Char) :=
  match cs with
  | [] => none
  | d1 :: r1 =>
    if d1.isDigit then
      let try1 := fun (_ : Unit) =>
        match capGroups r1 with
        | some (m, r) => some (d1 :: m, r)
        | none => none
      match r1 with
      | [] => try1 ()
      | d2 :: r2 =>
        if d2.isDigit then
          let try2 := fun (_ : Unit) =>
            match capGroups r2 with
            | some (m, r) => some (d1 :: d2 :: m, r)
            | none => try1 ()
          match r2 with
          | [] => try2 ()
          | d3 :: r3 =>
            if d3.isDigit then
              match capGroups r3 with
              | some (m, r) => some (d1 :: d2 :: d3 :: m, r)
              | none => try2 ()
            else try2 ()
        else try1 ()
    else none

/-- `\s+`: nonempty whitespace run, returning the remainder. -/
def matchWsRun (cs : List Char) : Option (List Char) :=
  if (cs.takeWhile isPyWs).isEmpty then none else some (cs.dropWhile isPyWs)

/-- `(Jan|Feb|...|Dec)` (IGNORECASE) anchored at the start: the three raw
characters and the remainder.  The alternatives are the keys of `MONTH_MAP`. -/
def monthAbbrevAt : List Char → Option (List Char × List Char)
  | c1 :: c2 :: c3 :: rest =>
    if (MONTH_MAP.lookup (⟨[c1.toLower, c2.toLower, c3.toLower]⟩ : String)).isSome then
      some ([c1, c2, c3], rest)
    else none
  | _ => none

/-- `str.split(sep)` for a single-character separator. -/
def splitOnChar (sep : Char) : List Char → List (List Char)
  | [] => [[]]
  | c :: rest =>
    let r := splitOnChar sep rest
    if c = sep then [] :: r
    else
      match r with
      | h :: t => (c :: h) :: t
      | [] => [[c]]

/-- `str.split("\n")`. -/
def splitLines (cs : List Char) : List (List Char) := splitOnChar '\n' cs

/-- All lines of all pages in document order (`for page_text in
self._iterate_pages(): for line in page_text.split("\n")`). -/
def docLines (pages : List String) : List (List Char) :=
  pages.flatMap fun pg => splitLines pg.data

/-! ### src/parsers/standard_bank.py -/

/-- `StandardBankParser.DATE_PATTERN`
`^(\d{1,2})\s+(Jan|...|Dec)\s+(\d{2})\b` (IGNORECASE): returns
(day, month token, two-digit year, remainder after the match).  The greedy
`\d{1,2}` takes two digits when available; if the rest of the pattern then
fails, the one-digit alternative also fails because `\s+` cannot match the
second digit — so no backtracking is needed. -/
def matchStdDate (cs : List Char) :
    Option (List Char × List Char × List Char × List Char) :=
  match cs with
  | [] => none
  | d1 :: r1 =>
    if d1.isDigit then
      let dayRest : List Char × List Char :=
        match r1 with
        | d2 :: r2 => if d2.isDigit then ([d1, d2], r2) else ([d1], r1)
        | [] => ([d1], r1)
      match matchWsRun dayRest.2 with
      | none => none
      | some r3 =>
        match monthAbbrevAt r3 with
        | none => none
        | some (mon, r4) =>
          match matchWsRun r4 with
          | none => none
          | some r5 =>
            match r5 with
            | y1 :: y2 :: r6 =>
              if y1.isDigit && y2.isDigit then
                match r6 with
                | [] => some (dayRest.1, mon, [y1, y2], [])
                | a :: _ =>
                  if isWordChar a then none else some (dayRest.1, mon, [y1, y2], r6)
              else none
            | _ => none
    else none

/-- The scanning phase of `StandardBankParser.extract_transactions`
(standard_bank.py lines 66-97): skip checks, date match, amount token
collection and description slicing.  Returns (date string, description, amount
tokens) or `none` for a skipped line. -/
def stdParseLine (raw : List Char) : Option (String × String × List (List Char)) :=
  let line := pyStrip raw
  if containsSub line "Date".data && containsSub line "Description".data then none
  else if containsSub line "Payments".data && containsSub line "Deposits".data then none
  else if containsSub (line.map Char.toUpper) "STATEMENT OPENING BALANCE".data then none
  else
    match matchStdDate line with
    | none => none
    | some (day, mon, yy, rest) =>
      let amounts := findAll (matchOptMinus (matchClassAmount isDigitComma)) line
      if amounts.length < 1 then none
      else
        let date_str : String :=
          zfill 2 ⟨day⟩ ++ "/" ++ ((MONTH_MAP.lookup ⟨mon.map Char.toLower⟩).getD "01")
            ++ "/20" ++ ⟨yy⟩
        let rest_of_line := pyStrip rest
        let description : String :=
          match searchStart (matchOptMinus (matchClassAmount isDigitComma)) rest_of_line with
          | some (i, _) => ⟨pyStrip (rest_of_line.take i)⟩
          | none => ⟨rest_of_line⟩
        some (date_str, description, amounts)

/-- The debit/credit resolution of `StandardBankParser.extract_transactions`
(standard_bank.py lines 99-130), translated branch by branch; the two
sequential `if` chains of the three-amount case are encoded by threading the
intermediate `(debit, credit)` pair. -/
def stdResolve (amounts : List (List Char)) : ℚ × ℚ :=
  if amounts.length = 3 then
    let payment := clean_amount ⟨amounts.getD 0 []⟩ true true
    let deposit := clean_amount ⟨amounts.getD 1 []⟩ true true
    let dc1 : ℚ × ℚ :=
      if payment < 0 then (|payment|, 0)
      else if payment > 0 then (0, payment)
      else (0, 0)
    if deposit > 0 then (dc1.1, deposit)
    else if deposit < 0 then (|deposit|, dc1.2)
    else dc1
  else if amounts.length = 2 then
    let first_amount := clean_amount ⟨amounts.getD 0 []⟩ true true
    if first_amount < 0 then (|first_amount|, 0) else (0, first_amount)
  else (0, 0)

/-- One line of `StandardBankParser.extract_transactions`. -/
def stdProcessLine (raw : List Char) : Option Row :=
  (stdParseLine raw).map fun x =>
    create_transaction_row x.1 x.2.1 (stdResolve x.2.2).1 (stdResolve x.2.2).2
      (clean_amount ⟨x.2.2.getLastD []⟩ true true)

/-- `StandardBankParser.extract_transactions` (standard_bank.py lines 55-134)
over the document's page texts. -/
def stdExtractTransactions (pages : List String) : List Row :=
  (docLines pages).filterMap stdProcessLine

/-! ### src/parsers/capitec.py -/

/-- `re.match(r"\d{2}/\d{2}/\d{4}", line)` as a check (capitec.py line 73). -/
def capitecDateOk (cs : List Char) : Bool :=
  match cs with
  | a :: b :: s1 :: c :: d :: s2 :: e :: f :: g :: h :: _ =>
    a.isDigit && b.isDigit && s1 = '/' && c.isDigit && d.isDigit && s2 = '/' &&
      e.isDigit && f.isDigit && g.isDigit && h.isDigit
  | _ => false

/-- Amount collection of `CapitecParser.extract_transactions` (capitec.py lines
76-79): the space-grouped pattern `-?\d{1,3}(?: \d{3})*\.\d{2}` first; if it
finds fewer than two tokens, the comma pattern `-?[\d,]+\.\d{2}` instead. -/
def capitecAmountsOf (line : List Char) : List (List Char) :=
  let a1 := findAll (matchOptMinus matchCapCore) line
  if a1.length < 2 then findAll (matchOptMinus (matchClassAmount isDigitComma)) line
  else a1

/-- The scanning phase of `CapitecParser.extract_transactions` (capitec.py
lines 60-91): skip checks, date check, amount tokens, description slicing
(`re.search(r"[-\d,\s]+\.\d{2}", line[11:])`). -/
def capitecParseLine (raw : List Char) : Option (String × String × List (List Char)) :=
  let line := pyStrip raw
  if containsSub line "Date".data && containsSub line "Description".data then none
  else if containsSub line "Money in".data || containsSub line "Money out".data then none
  else if containsSub line "Transaction history".data then none
  else if !capitecDateOk line then none
  else
    let amounts := capitecAmountsOf line
    if amounts.length < 2 then none
    else
      let date : String := ⟨line.take 10⟩
      let after11 := line.drop 11
      let description : String :=
        match searchStart (matchClassAmount isAmtClassCap) after11 with
        | some (i, _) => ⟨pyStrip (after11.take i)⟩
        | none => ⟨pyStrip after11⟩
      some (date, description, amounts)

/-- The debit/credit resolution of `CapitecParser.extract_transactions`
(capitec.py lines 93-151), translated branch by branch.  Negative indices
`amounts[-k]` are `amounts[len-k]`. -/
def capitecResolve (previous_balance : Option ℚ) (balance : ℚ)
    (amounts : List (List Char)) : ℚ × ℚ :=
  if 4 ≤ amounts.length then
    let money_in := clean_amount ⟨amounts.getD (amounts.length - 4) []⟩ true true
    let money_out := clean_amount ⟨amounts.getD (amounts.length - 3) []⟩ true true
    let fees := clean_amount ⟨amounts.getD (amounts.length - 2) []⟩ true true
    ((if money_out > 0 then |money_out| else 0) + (if fees > 0 then fees else 0),
     if money_in > 0 then money_in else 0)
  else if amounts.length = 3 then
    let first_amt := clean_amount ⟨amounts.getD 0 []⟩ true true
    let second_amt := clean_amount ⟨amounts.getD 1 []⟩ true true
    if first_amt < 0 then
      (|first_amt| + (if second_amt > 0 ∧ second_amt < |first_amt| then second_amt else 0), 0)
    else if first_amt > 0 then (0, first_amt)
    else
      match previous_balance with
      | some p =>
        let diff := balance - p
        if diff < 0 then (|diff|, 0) else (0, diff)
      | none => (0, 0)
  else
    let txn_amount := clean_amount ⟨amounts.getD 0 []⟩ true true
    if txn_amount < 0 then (|txn_amount|, 0)
    else if txn_amount > 0 then (0, txn_amount)
    else
      match previous_balance with
      | some p =>
        let diff := balance - p
        if diff < 0 then (|diff|, 0) else (0, diff)
      | none => (0, 0)

/-- One line of `CapitecParser.extract_transactions`, given the carried
previous balance. -/
def capitecProcessLine (previous_balance : Option ℚ) (raw : List Char) : Option Row :=
  (capitecParseLine raw).map fun x =>
    let balance := clean_amount ⟨x.2.2.getLastD []⟩ true true
    create_transaction_row x.1 x.2.1 (capitecResolve previous_balance balance x.2.2).1
      (capitecResolve previous_balance balance x.2.2).2 balance

/-- The line loop of `CapitecParser.extract_transactions`: the previous balance
is updated only when a row is appended (capitec.py lines 153-154) and carries
across pages (initialised before the page loop, line 58). -/
def capitecExtractAux (previous_balance : Option ℚ) : List (List Char) → List Row
  | [] => []
  | l :: rest =>
    match capitecProcessLine previous_balance l with
    | some r => r :: capitecExtractAux (some r.Balance) rest
    | none => capitecExtractAux previous_balance rest

/-- `CapitecParser.extract_transactions` (capitec.py lines 48-156) over the
document's page texts. -/
def capitecExtractTransactions (pages : List String) : List Row :=
  capitecExtractAux none (docLines pages)

/-! ### src/parsers/tymebank.py -/

/-- `TymeBankParser.DATE_PATTERN`
`^(\d{2}\s+(?:Jan|...|Dec)\s+\d{4})` (IGNORECASE): (day, month token,
four-digit year, remainder).  `date_raw.split()` on the matched text yields
exactly these three tokens. -/
def matchTymeDate (cs : List Char) :
    Option (List Char × List Char × List Char × List Char) :=
  match cs with
  | d1 :: d2 :: r2 =>
    if d1.isDigit && d2.isDigit then
      match matchWsRun r2 with
      | none => none
      | some r3 =>
        match monthAbbrevAt r3 with
        | none => none
        | some (mon, r4) =>
          match matchWsRun r4 with
          | none => none
          | some r5 =>
            match r5 with
            | y1 :: y2 :: y3 :: y4 :: r6 =>
              if y1.isDigit && y2.isDigit && y3.isDigit && y4.isDigit then
                some ([d1, d2], mon, [y1, y2, y3, y4], r6)
              else none
            | _ => none
    else none
  | _ => none

/-- `re.sub(r"^\s*-\s*", "", description)` (tymebank.py line 97): remove a
leading whitespace-dash-whitespace prefix (the pattern is anchored). -/
def stripLeadingDashWs (cs : List Char) : List Char :=
  match cs.dropWhile isPyWs with
  | '-' :: r => r.dropWhile isPyWs
  | _ => cs

/-- The scanning phase of `TymeBankParser.extract_transactions` (tymebank.py
lines 63-97): skip checks, date match, amount tokens with spaces removed
(line 87), and description slicing with the dash placeholder stripped.
Returns (date string, description, cleaned amount tokens). -/
def tymeParseLine (raw : List Char) : Option (String × String × List (List Char)) :=
  let line := pyStrip raw
  if containsSub line "Date".data && containsSub line "Description".data then none
  else if containsSub line "Opening Balance".data && (matchTymeDate line).isNone then none
  else
    match matchTymeDate line with
    | none => none
    | some (day, mon, year, rest) =>
      let date_str : String :=
        ⟨day⟩ ++ "/" ++ ((MONTH_MAP.lookup ⟨mon.map Char.toLower⟩).getD "01") ++ "/" ++ ⟨year⟩
      let amounts := findAll (matchClassAmount isDigitWs) line
      if amounts.length < 1 then none
      else
        let cleaned_amounts := amounts.map fun a => a.filter (· != ' ')
        let rest_of_line := pyStrip rest
        let description0 : List Char :=
          match searchStart (matchClassAmount isDigitWs) rest_of_line with
          | some (i, _) => pyStrip (rest_of_line.take i)
          | none => rest_of_line
        let description : String := ⟨pyStrip (stripLeadingDashWs description0)⟩
        some (date_str, description, cleaned_amounts)

/-- One line of `TymeBankParser.extract_transactions` (tymebank.py lines
99-117), given the last appended row's balance (`rows[-1]["Balance"]`, `none`
while `rows` is empty).  The unguarded `float()` calls on lines 101 and 114-115
can raise `ValueError`; outer `none` models that exception aborting the whole
extraction, `some none` a skipped line. -/
def tymeProcessLine (rows_last_balance : Option ℚ) (raw : List Char) :
    Option (Option Row) :=
  match tymeParseLine raw with
  | none => some none
  | some (date_str, description, cleaned_amounts) =>
    match pyFloat (cleaned_amounts.getLastD []) with
    | none => none
    | some balance =>
      match rows_last_balance with
      | some prev =>
        let diff := balance - prev
        if diff < 0 then
          some (some (create_transaction_row date_str description (|diff|) 0 balance))
        else some (some (create_transaction_row date_str description 0 diff balance))
      | none =>
        if 2 ≤ cleaned_amounts.length then
          if 3 ≤ cleaned_amounts.length then
            match pyFloat (cleaned_amounts.getD (cleaned_amounts.length - 3) []),
                pyFloat (cleaned_amounts.getD (cleaned_amounts.length - 2) []) with
            | some debit, some credit =>
              some (some (create_transaction_row date_str description debit credit balance))
            | _, _ => none
          else some (some (create_transaction_row date_str description 0 0 balance))
        else some (some (create_transaction_row date_str description 0 0 balance))

/-- The line loop of `TymeBankParser.extract_transactions`; `none` models an
escaped `ValueError` (ExtractionFailure). -/
def tymeExtractAux (rows_last_balance : Option ℚ) : List (List Char) → Option (List Row)
  | [] => some []
  | l :: rest =>
    match tymeProcessLine rows_last_balance l with
    | none => none
    | some none => tymeExtractAux rows_last_balance rest
    | some (some r) =>
      match tymeExtractAux (some r.Balance) rest with
      | none => none
      | some rs => some (r :: rs)

/-- `TymeBankParser.extract_transactions` (tymebank.py lines 59-119) over the
document's page texts. -/
def tymeExtractTransactions (pages : List String) : Option (List Row) :=
  tymeExtractAux none (docLines pages)

/-! ### src/parsers/absa.py -/

/-- `ABSAParser.DATE_PATTERN` `^(\d{1,2}/\d{1,2}/\d{4})`: the matched text
(group 1, kept verbatim by absa.py line 86) and the remainder.  The greedy
`\d{1,2}` needs no real backtracking: if two digits are followed by anything
but `/`, the one-digit alternative faces a digit where `/` is required and
fails as well. -/
def matchAbsaDate (cs : List Char) : Option (List Char × List Char) :=
  match cs with
  | [] => none
  | d1 :: r1 =>
    if d1.isDigit then
      let dayRest : List Char × List Char :=
        match r1 with
        | d2 :: r2 => if d2.isDigit then ([d1, d2], r2) else ([d1], r1)
        | [] => ([d1], r1)
      match dayRest.2 with
      | '/' :: r3 =>
        match r3 with
        | m1 :: r4 =>
          if m1.isDigit then
            let monRest : List Char × List Char :=
              match r4 with
              | m2 :: r5 => if m2.isDigit then ([m1, m2], r5) else ([m1], r4)
              | [] => ([m1], r4)
            match monRest.2 with
            | '/' :: r6 =>
              match r6 with
              | y1 :: y2 :: y3 :: y4 :: r7 =>
                if y1.isDigit && y2.isDigit && y3.isDigit && y4.isDigit then
                  some (dayRest.1 ++ '/' :: (monRest.1 ++ '/' :: [y1, y2, y3, y4]), r7)
                else none
              | _ => none
            | _ => none
          else none
        | [] => none
      | _ => none
    else none

/-- One alternative of the ABSA charge-type pattern matching here to the end
of the line: `\s*WORD\s*$` with IGNORECASE (`w` is the lowercase word; the
space inside `Sms Notifications` is a literal space).  The words start with
letters, so the greedy `\s*` never backtracks. -/
def matchChargeWordAt (cs : List Char) (w : List Char) : Bool :=
  let t := cs.dropWhile isPyWs
  ((t.take w.length).map Char.toLower = w) && (t.drop w.length).all isPyWs

/-- Whether `\s*(Headoffice|Settlement|Notifyme|Sms Notifications)\s*$`
(IGNORECASE) matches starting at this position. -/
def isChargeMatchAt (cs : List Char) : Bool :=
  matchChargeWordAt cs "headoffice".data ||
    matchChargeWordAt cs "settlement".data ||
    matchChargeWordAt cs "notifyme".data ||
    matchChargeWordAt cs "sms notifications".data

/-- `re.sub(r"\s*(Headoffice|Settlement|Notifyme|Sms Notifications)\s*$", "",
description, flags=re.IGNORECASE)` (absa.py lines 104-107): the end-anchored
pattern matches at most once, at the leftmost position whose suffix matches;
that suffix is removed. -/
def absaSubCharge : List Char → List Char
  | [] => []
  | c :: rest => if isChargeMatchAt (c :: rest) then [] else c :: absaSubCharge rest

/-- The scanning phase of `ABSAParser.extract_transactions` (absa.py lines
70-107): skip checks, date match (the matched text kept verbatim), amount
tokens with spaces removed, description slicing and the trailing charge-type
substitution.  Returns (date string, description, cleaned amount tokens). -/
def absaParseLine (raw : List Char) : Option (String × String × List (List Char)) :=
  let line := pyStrip raw
  if containsSub line "Date".data && containsSub line "Transaction".data then none
  else if containsSub line "Bal Brought Forward".data ||
      containsSub line "Balance Brought Forward".data then none
  else if containsSub (line.map Char.toUpper) "YOUR PRICING PLAN".data ||
      containsSub (line.map Char.toUpper) "INTEREST RATE".data then none
  else
    match matchAbsaDate line with
    | none => none
    | some (date, rest) =>
      let amounts := findAll (matchClassAmount isDigitWs) line
      if amounts.length < 1 then none
      else
        let cleaned_amounts := amounts.map fun a => a.filter (· != ' ')
        let rest_of_line := pyStrip rest
        let description0 : List Char :=
          match searchStart (matchClassAmount isDigitWs) rest_of_line with
          | some (i, _) => pyStrip (rest_of_line.take i)
          | none => rest_of_line
        let description : String := ⟨pyStrip (absaSubCharge description0)⟩
        some (⟨date⟩, description, cleaned_amounts)

/-- One line of `ABSAParser.extract_transactions` (absa.py lines 109-145),
given the last appended row's balance (`rows[-1]["Balance"]`, `none` while
`rows` is empty).  The first debit/credit block (lines 114-134) and the
sequential fallback block (lines 137-143) are encoded by threading the
intermediate pair; the loop over `non_balance` calls `float` on every element,
so any unparsable element raises.  Unguarded `float()` calls raising
`ValueError` are the outer `none`; a skipped line is `some none`. -/
def absaProcessLine (rows_last_balance : Option ℚ) (raw : List Char) :
    Option (Option Row) :=
  match absaParseLine raw with
  | none => some none
  | some (date_str, description, cleaned_amounts) =>
    match pyFloat (cleaned_amounts.getLastD []) with
    | none => none
    | some balance =>
      let non_balance := cleaned_amounts.dropLast
      let dc1 : Option (ℚ × ℚ) :=
        if 2 ≤ cleaned_amounts.length then
          match rows_last_balance with
          | some prev =>
            let diff := balance - prev
            some (if diff < 0 then (|diff|, 0) else (0, diff))
          | none =>
            if non_balance.length = 1 then
              match pyFloat (non_balance.getD 0 []) with
              | none => none
              | some v => some (v, 0)
            else if 2 ≤ non_balance.length then
              match non_balance.mapM pyFloat with
              | none => none
              | some vals =>
                some (vals.getD (vals.length - 2) 0, vals.getD (vals.length - 1) 0)
            else some (0, 0)
        else some (0, 0)
      match dc1 with
      | none => none
      | some dc =>
        let dc2 : ℚ × ℚ :=
          if 2 ≤ cleaned_amounts.length ∧ dc.1 = 0 ∧ dc.2 = 0 then
            match rows_last_balance with
            | some prev =>
              let diff := balance - prev
              if diff < 0 then (|diff|, 0)
              else if diff > 0 then (0, diff)
              else dc
            | none => dc
          else dc
        some (some (create_transaction_row date_str description dc2.1 dc2.2 balance))

/-- The line loop of `ABSAParser.extract_transactions`: the previous balance
is updated only when a row is appended (line 145) and carries across pages;
`none` models an escaped `ValueError`. -/
def absaExtractAux (rows_last_balance : Option ℚ) : List (List Char) → Option (List Row)
  | [] => some []
  | l :: rest =>
    match absaProcessLine rows_last_balance l with
    | none => none
    | some none => absaExtractAux rows_last_balance rest
    | some (some r) =>
      match absaExtractAux (some r.Balance) rest with
      | none => none
      | some rs => some (r :: rs)

/-- `ABSAParser.extract_transactions` (absa.py lines 66-147) over the
document's page texts. -/
def absaExtractTransactions (pages : List String) : Option (List Row) :=
  absaExtractAux none (docLines pages)

/-! ### Serialization shape of produced transactions (C8)

The amount patterns all end in `\.\d{2}`, so every parsed value is a whole
number of hundredths; the date strings are assembled as `DD/MM/YYYY`. -/

/-- `q` is a decimal with at most two fractional digits. -/
def isCent (q : ℚ) : Prop := ∃ k : ℤ, q = (k : ℚ) / 100

/-- `s` is a `DD/MM/YYYY` string: ten characters, digits around `/` at
positions 2 and 5. -/
def isDDMMYYYY (s : String) : Bool :=
  match s.data with
  | [a, b, s1, c, d, s2, e, f, g, h] =>
    a.isDigit && b.isDigit && s1 = '/' && c.isDigit && d.isDigit && s2 = '/' &&
      e.isDigit && f.isDigit && g.isDigit && h.isDigit
  | _ => false

theorem isCent_zero : isCent 0 := ⟨0, by norm_num⟩

theorem isCent_add {a b : ℚ} (ha : isCent a) (hb : isCent b) : isCent (a + b) := by
  obtain ⟨k, rfl⟩ := ha
  obtain ⟨m, rfl⟩ := hb
  exact ⟨k + m, by push_cast; ring⟩

theorem isCent_neg {a : ℚ} (ha : isCent a) : isCent (-a) := by
  obtain ⟨k, rfl⟩ := ha
  exact ⟨-k, by push_cast; ring⟩

theorem isCent_sub {a b : ℚ} (ha : isCent a) (hb : isCent b) : isCent (a - b) := by
  obtain ⟨k, rfl⟩ := ha
  obtain ⟨m, rfl⟩ := hb
  exact ⟨k - m, by push_cast; ring⟩

theorem isCent_abs {a : ℚ} (ha : isCent a) : isCent |a| := by
  obtain ⟨k, rfl⟩ := ha
  refine ⟨|k|, ?_⟩
  rw [abs_div]
  push_cast
  norm_num

theorem isCent_nat_frac (n m : ℕ) : isCent ((n : ℚ) + (m : ℚ) / 100) :=
  ⟨100 * n + m, by push_cast; ring⟩

theorem mem_takeWhile_pred {p : Char → Bool} {l : List Char} {c : Char}
    (h : c ∈ l.takeWhile p) : p c = true := by
  induction l with
  | nil => simp [List.takeWhile] at h
  | cons a rest ih =>
    rw [List.takeWhile_cons] at h
    by_cases hp : p a
    · rw [if_pos hp] at h
      rcases List.mem_cons.mp h with rfl | h
      · exact hp
      · exact ih h
    · rw [if_neg hp] at h
      simp at h

theorem dropWhile_cons_facts {p : Char → Bool} {l r : List Char} {c : Char}
    (h : l.dropWhile p = c :: r) : p c = false ∧ c ∈ l := by
  constructor
  · have hh := List.head?_dropWhile_not p l
    rw [h] at hh
    simpa using hh
  · exact (List.dropWhile_sublist p).subset (h ▸ List.mem_cons_self c r)

theorem lookup_val_mem {α β : Type} [BEq α] (l : List (α × β)) (a : α) (v : β)
    (h : l.lookup a = some v) : v ∈ l.map Prod.snd := by
  induction l with
  | nil => simp [List.lookup] at h
  | cons p rest ih =>
    obtain ⟨k, b⟩ := p
    rw [List.lookup] at h
    split at h
    · simp only [Option.some.injEq] at h
      subst h
      simp
    · simpa using Or.inr (by simpa using ih h)

/-- Every value of `MONTH_MAP` (and the `"01"` default) is a two-digit string. -/
theorem month_num_shape (m : String) :
    ∃ x y : Char, ((MONTH_MAP.lookup m).getD "01").data = [x, y] ∧
      x.isDigit = true ∧ y.isDigit = true := by
  cases h : MONTH_MAP.lookup m with
  | none => exact ⟨'0', '1', by simp [h], by decide, by decide⟩
  | some v =>
    have hv := lookup_val_mem MONTH_MAP m v h
    simp only [MONTH_MAP, List.map, List.mem_cons, List.not_mem_nil, or_false] at hv
    rcases hv with rfl | rfl | rfl | rfl | rfl | rfl | rfl | rfl | rfl | rfl | rfl | rfl <;>
      exact ⟨_, _, rfl, by decide, by decide⟩

/-- `pyStrip` of a token ending in `.d₁d₂` with `d₂` not whitespace only strips
on the left. -/
theorem pyStrip_frac (pre : List Char) (d1 d2 : Char) (h2 : isPyWs d2 = false) :
    pyStrip (pre ++ ['.', d1, d2]) = pre.dropWhile isPyWs ++ ['.', d1, d2] := by
  unfold pyStrip
  have h1 : (pre ++ ['.', d1, d2]).dropWhile isPyWs =
      pre.dropWhile isPyWs ++ ['.', d1, d2] := by
    rw [List.dropWhile_append]
    split
    · next he =>
      rw [List.isEmpty_iff] at he
      rw [he]
      simp [List.dropWhile, show isPyWs '.' = false from rfl]
    · rfl
  rw [h1, List.reverse_append]
  have h3 : (['.', d1, d2].reverse ++ (pre.dropWhile isPyWs).reverse).dropWhile isPyWs =
      ['.', d1, d2].reverse ++ (pre.dropWhile isPyWs).reverse := by
    simp only [List.reverse_cons, List.reverse_nil, List.nil_append, List.cons_append,
      List.append_assoc]
    rw [List.dropWhile_cons, if_neg (by simp [h2])]
  rw [h3, List.reverse_append, List.reverse_reverse, List.reverse_reverse]

/-- `pyFloatCore` on a token `ds.d₁d₂` whose prefix contains no dot either
fails or yields a value `n + m/100`. -/
theorem pyFloatCore_frac (ds : List Char) (d1 d2 : Char)
    (hds : ∀ c ∈ ds, ¬(c = '.')) :
    pyFloatCore (ds ++ ['.', d1, d2]) = none ∨
      ∃ n m : ℕ, pyFloatCore (ds ++ ['.', d1, d2]) = some ((n : ℚ) + (m : ℚ) / 100) := by
  by_cases hall : ∀ c ∈ ds, c.isDigit = true
  · have hdrop : (ds ++ ['.', d1, d2]).dropWhile Char.isDigit = ['.', d1, d2] := by
      rw [List.dropWhile_append_of_pos hall]
      simp [List.dropWhile]
    have htake : (ds ++ ['.', d1, d2]).takeWhile Char.isDigit =
        ds ++ ['.', d1, d2].takeWhile Char.isDigit :=
      List.takeWhile_append_of_pos hall
    by_cases hd1 : d1.isDigit = true
    · by_cases hd2 : d2.isDigit = true
      · right
        refine ⟨digitsVal ((ds ++ ['.', d1, d2]).takeWhile Char.isDigit),
          digitsVal [d1, d2], ?_⟩
        simp only [pyFloatCore, hdrop]
        have hfp : [d1, d2].takeWhile Char.isDigit = [d1, d2] := by
          simp [List.takeWhile, hd1, hd2]
        have hfp2 : [d1, d2].dropWhile Char.isDigit = [] := by
          simp [List.dropWhile, hd1, hd2]
        rw [hfp, hfp2]
        simp only [List.isEmpty_nil, if_true]
        rw [if_neg (by simp)]
        norm_num
      · left
        simp only [pyFloatCore, hdrop]
        have hfp2 : [d1, d2].dropWhile Char.isDigit = [d2] := by
          simp [List.dropWhile, hd1, hd2]
        rw [hfp2]
        simp
    · left
      simp only [pyFloatCore, hdrop]
      have hfp2 : [d1, d2].dropWhile Char.isDigit = [d1, d2] := by
        simp [List.dropWhile, hd1]
      rw [hfp2]
      simp
  · left
    have hne : ds.dropWhile Char.isDigit ≠ [] := by
      rw [Ne, List.dropWhile_eq_nil_iff]
      simpa using hall
    obtain ⟨c, r, hcr⟩ : ∃ c r, ds.dropWhile Char.isDigit = c :: r := by
      cases hd : ds.dropWhile Char.isDigit with
      | nil => exact absurd hd hne
      | cons c r => exact ⟨c, r, rfl⟩
    obtain ⟨hcd, hcm⟩ := dropWhile_cons_facts hcr
    have hdrop : (ds ++ ['.', d1, d2]).dropWhile Char.isDigit =
        c :: (r ++ ['.', d1, d2]) := by
      rw [List.dropWhile_append]
      rw [hcr]
      simp
    simp only [pyFloatCore, hdrop]
    have hcne : ¬(c = '.') := hds c hcm
    split
    · next heq => exact absurd heq (by simp)
    · next rest2 heq =>
      exfalso
      have : c = '.' := by
        have := heq
        injection this
      exact hcne this
    · rfl

/-- `pyFloat` on a token `pre.d₁d₂` with a sign-free, dot-free prefix either
fails or yields `n + m/100` — a whole number of hundredths. -/
theorem pyFloat_frac (pre : List Char) (d1 d2 : Char)
    (hpre : ∀ c ∈ pre, c ≠ '-' ∧ c ≠ '+' ∧ c ≠ '.')
    (hd2 : isPyWs d2 = false) :
    pyFloat (pre ++ ['.', d1, d2]) = none ∨
      ∃ v : ℚ, pyFloat (pre ++ ['.', d1, d2]) = some v ∧ isCent v := by
  have hstrip := pyStrip_frac pre d1 d2 hd2
  have hsub : ∀ c ∈ pre.dropWhile isPyWs, c ∈ pre :=
    fun c hc => (List.dropWhile_sublist isPyWs).subset hc
  simp only [pyFloat, hstrip]
  cases hp : pre.dropWhile isPyWs with
  | nil =>
    simp only [List.nil_append]
    have := pyFloatCore_frac [] d1 d2 (by simp)
    simp only [List.nil_append] at this
    rcases this with h | ⟨n, m, h⟩
    · exact Or.inl h
    · exact Or.inr ⟨_, h, isCent_nat_frac n m⟩
  | cons a pre' =>
    have ha := hpre a (hsub a (hp ▸ List.mem_cons_self a pre'))
    have hpre' : ∀ c ∈ a :: pre', c ≠ '-' ∧ c ≠ '+' ∧ c ≠ '.' := by
      intro c hc
      exact hpre c (hsub c (hp ▸ hc))
    have hcore := pyFloatCore_frac (a :: pre') d1 d2 (fun c hc => (hpre' c hc).2.2)
    simp only [List.cons_append] at hcore ⊢
    split
    · next heq =>
      exfalso
      have : a = '-' := by injection heq
      exact ha.1 this
    · next heq =>
      exfalso
      have : a = '+' := by injection heq
      exact ha.2.1 this
    · rcases hcore with h | ⟨n, m, h⟩
      · exact Or.inl h
      · exact Or.inr ⟨_, h, isCent_nat_frac n m⟩

theorem digit_ne_space {c : Char} (h : c.isDigit = true) : (c != ' ') = true := by
  cases hc : c == ' '
  · simp [bne, hc]
  · exfalso
    rw [beq_iff_eq] at hc
    subst hc
    simp at h

theorem digit_not_pyWs {c : Char} (h : c.isDigit = true) : isPyWs c = false := by
  by_contra h2
  simp only [Bool.not_eq_false, isPyWs, Bool.or_eq_true, decide_eq_true_eq] at h2
  rcases h2 with ((((rfl | rfl) | rfl) | rfl) | rfl) | rfl <;> simp at h

theorem isDigitWs_not_sign {c : Char} (h : isDigitWs c = true) :
    c ≠ '-' ∧ c ≠ '+' ∧ c ≠ '.' := by
  refine ⟨?_, ?_, ?_⟩ <;> rintro rfl <;> simp [isDigitWs, isPyWs] at h

/-- Inversion of `matchClassAmount`: the token is a nonempty class run followed
by a dot and two digits. -/
theorem matchClassAmount_inv {cls : Char → Bool} {cs tok r : List Char}
    (h : matchClassAmount cls cs = some (tok, r)) :
    ∃ run d1 d2, tok = run ++ ['.', d1, d2] ∧ (∀ c ∈ run, cls c = true) ∧
      d1.isDigit = true ∧ d2.isDigit = true ∧ run ≠ [] := by
  unfold matchClassAmount at h
  split at h
  · next d1 d2 rest2 heq =>
    by_cases hemp : (cs.takeWhile cls).isEmpty = true
    · simp [hemp] at h
    · by_cases hdig : (d1.isDigit && d2.isDigit) = true
      · simp only [hemp, Bool.false_eq_true, if_false, hdig, if_true] at h
        simp only [Option.some.injEq, Prod.mk.injEq] at h
        obtain ⟨rfl, rfl⟩ := h
        rw [Bool.and_eq_true] at hdig
        exact ⟨cs.takeWhile cls, d1, d2, by simp, fun c hc => mem_takeWhile_pred hc,
          hdig.1, hdig.2, by simpa [List.isEmpty_iff] using hemp⟩
      · simp [hemp, hdig] at h
  · exact absurd h (by simp)

/-- Tokens collected by `findAllAux` all satisfy any property guaranteed by the
matcher. -/
theorem findAllAux_forall {m : List Char → Option (List Char × List Char)}
    {P : List Char → Prop}
    (hm : ∀ cs tok r, m cs = some (tok, r) → P tok) :
    ∀ (fuel : ℕ) (cs tok : List Char), tok ∈ findAllAux m fuel cs → P tok := by
  intro fuel
  induction fuel with
  | zero => intro cs tok h; simp [findAllAux] at h
  | succ n ih =>
    intro cs tok h
    cases cs with
    | nil => simp [findAllAux] at h
    | cons c rest =>
      rw [findAllAux] at h
      split at h
      · next tok' r' hm' =>
        rcases List.mem_cons.mp h with rfl | h
        · exact hm _ _ _ hm'
        · exact ih _ _ h
      · exact ih _ _ h

/-- Every cleaned TymeBank amount token (spaces removed) is a sign-free,
dot-free prefix followed by `.d₁d₂` with `d₂` a digit. -/
theorem tyme_cleaned_token_shape (tok : List Char)
    (h : tok ∈ findAll (matchClassAmount isDigitWs) ln) :
    ∃ pre e1 e2, tok.filter (· != ' ') = pre ++ ['.', e1, e2] ∧
      (∀ c ∈ pre, c ≠ '-' ∧ c ≠ '+' ∧ c ≠ '.') ∧ isPyWs e2 = false := by
  have hshape := findAllAux_forall (P := fun tok => ∃ run d1 d2,
      tok = run ++ ['.', d1, d2] ∧ (∀ c ∈ run, isDigitWs c = true) ∧
      d1.isDigit = true ∧ d2.isDigit = true)
    (fun cs tok r hm => by
      obtain ⟨run, d1, d2, ht, hr, h1, h2, _⟩ := matchClassAmount_inv hm
      exact ⟨run, d1, d2, ht, hr, h1, h2⟩) _ _ _ h
  obtain ⟨run, d1, d2, rfl, hrun, h1, h2⟩ := hshape
  refine ⟨run.filter (· != ' '), d1, d2, ?_, ?_, digit_not_pyWs h2⟩
  · rw [List.filter_append]
    congr 1
    simp [List.filter, show ('.' != ' ') = true from rfl, digit_ne_space h1,
      digit_ne_space h2]
  · intro c hc
    exact isDigitWs_not_sign (hrun c (List.mem_of_mem_filter hc))

/-- Inversion of `matchTymeDate`: the day is two digits, the year four. -/
theorem matchTymeDate_inv {cs day mon yr rest : List Char}
    (h : matchTymeDate cs = some (day, mon, yr, rest)) :
    (∃ d1 d2, day = [d1, d2] ∧ d1.isDigit = true ∧ d2.isDigit = true) ∧
    (∃ y1 y2 y3 y4, yr = [y1, y2, y3, y4] ∧ y1.isDigit = true ∧ y2.isDigit = true ∧
      y3.isDigit = true ∧ y4.isDigit = true) := by
  unfold matchTymeDate at h
  split at h
  · next d1 d2 r2 =>
    split at h
    · next hdd =>
      rw [Bool.and_eq_true] at hdd
      split at h
      · exact absurd h (by simp)
      · split at h
        · exact absurd h (by simp)
        · split at h
          · exact absurd h (by simp)
          · split at h
            · rename_i y1 y2 y3 y4 r6 heq5
              split at h
              · rename_i hyy
                simp only [Option.some.injEq, Prod.mk.injEq] at h
                obtain ⟨rfl, -, rfl, -⟩ := h
                simp only [Bool.and_eq_true] at hyy
                exact ⟨⟨d1, d2, rfl, hdd.1, hdd.2⟩,
                  ⟨y1, y2, y3, y4, rfl, hyy.1.1.1, hyy.1.1.2, hyy.1.2, hyy.2⟩⟩
              · exact absurd h (by simp)
            · exact absurd h (by simp)
    · exact absurd h (by simp)
  · exact absurd h (by simp)

theorem getLastD_mem {α : Type} {l : List α} (h : l ≠ []) (d : α) : l.getLastD d ∈ l := by
  cases l with
  | nil => exact absurd rfl h
  | cons a t =>
    rw [List.getLastD_eq_getLast?, List.getLast?_eq_getLast (a :: t) (by simp)]
    simp only [Option.getD_some]
    exact List.getLast_mem _

theorem getD_mem {α : Type} {l : List α} {i : ℕ} (h : i < l.length) (d : α) :
    l.getD i d ∈ l := by
  rw [List.getD_eq_getElem l d h]
  exact List.getElem_mem h

/-- Inversion of `tymeParseLine`: the date string is `DD/MM/YYYY`-shaped, and
the cleaned amount tokens are nonempty and all of the `prefix.d₁d₂` shape. -/
theorem tymeParseLine_inv {raw : List Char} {d desc : String} {ca : List (List Char)}
    (h : tymeParseLine raw = some (d, desc, ca)) :
    isDDMMYYYY d = true ∧ ca ≠ [] ∧
      ∀ tok ∈ ca, ∃ pre e1 e2, tok = pre ++ ['.', e1, e2] ∧
        (∀ c ∈ pre, c ≠ '-' ∧ c ≠ '+' ∧ c ≠ '.') ∧ isPyWs e2 = false := by
  simp only [tymeParseLine] at h
  split at h
  · exact absurd h (by simp)
  · split at h
    · exact absurd h (by simp)
    · split at h
      · exact absurd h (by simp)
      · rename_i day mon year rest heq
        split at h
        · exact absurd h (by simp)
        · rename_i hlen
          simp only [Option.some.injEq, Prod.mk.injEq] at h
          obtain ⟨hdate, -, hca⟩ := h
          refine ⟨?_, ?_, ?_⟩
          · obtain ⟨⟨d1, d2, rfl, hd1, hd2⟩, ⟨y1, y2, y3, y4, rfl, hy1, hy2, hy3, hy4⟩⟩ :=
              matchTymeDate_inv heq
            obtain ⟨x, y, hxy, hx, hyc⟩ := month_num_shape ⟨mon.map Char.toLower⟩
            rw [← hdate]
            simp only [isDDMMYYYY, String.data_append, hxy]
            simp [hd1, hd2, hx, hyc, hy1, hy2, hy3, hy4]
          · rw [← hca]
            simp only [Ne, List.map_eq_nil_iff]
            intro hnil
            rw [hnil] at hlen
            simp at hlen
          · intro tok htok
            rw [← hca] at htok
            obtain ⟨t, ht, rfl⟩ := List.mem_map.mp htok
            exact tyme_cleaned_token_shape t ht

/-- Every row emitted by `tymeProcessLine` has a `DD/MM/YYYY` date and
hundredth-valued debit, credit and balance, provided the carried balance is
hundredth-valued. -/
theorem tymeProcessLine_row_shape {lb : Option ℚ} {l : List Char} {r : Row}
    (hlb : ∀ b, lb = some b → isCent b)
    (h : tymeProcessLine lb l = some (some r)) :
    isDDMMYYYY r.Date = true ∧ isCent r.Debit ∧ isCent r.Credit ∧ isCent r.Balance := by
  simp only [tymeProcessLine] at h
  split at h
  · exact absurd h (by simp)
  · rename_i d desc ca hparse
    obtain ⟨hdate, hne, htok⟩ := tymeParseLine_inv hparse
    split at h
    · exact absurd h (by simp)
    · rename_i balance hbal
      have hbcent : isCent balance := by
        obtain ⟨pre, e1, e2, hsh, hpre, he2⟩ := htok _ (getLastD_mem hne [])
        rw [hsh] at hbal
        rcases pyFloat_frac pre e1 e2 hpre he2 with hn | ⟨v, hv, hc⟩
        · rw [hn] at hbal; exact absurd hbal (by simp)
        · rw [hv] at hbal
          simp only [Option.some.injEq] at hbal
          exact hbal ▸ hc
      split at h
      · rename_i prev
        have hpcent : isCent prev := hlb prev rfl
        split at h <;>
        · simp only [Option.some.injEq] at h
          subst h
          refine ⟨hdate, ?_⟩
          first
            | exact ⟨isCent_abs (isCent_sub hbcent hpcent), isCent_zero, hbcent⟩
            | exact ⟨isCent_zero, isCent_sub hbcent hpcent, hbcent⟩
      · split at h
        · rename_i hlen2
          split at h
          · rename_i hlen3
            split at h
            · rename_i debit credit hd hc
              simp only [Option.some.injEq] at h
              subst h
              refine ⟨hdate, ?_, ?_, hbcent⟩
              · obtain ⟨pre, e1, e2, hsh, hpre, he2⟩ :=
                  htok _ (getD_mem (i := ca.length - 3) (by omega) [])
                rw [hsh] at hd
                rcases pyFloat_frac pre e1 e2 hpre he2 with hn | ⟨v, hv, hcv⟩
                · rw [hn] at hd; exact absurd hd (by simp)
                · rw [hv] at hd
                  simp only [Option.some.injEq] at hd
                  exact hd ▸ hcv
              · obtain ⟨pre, e1, e2, hsh, hpre, he2⟩ :=
                  htok _ (getD_mem (i := ca.length - 2) (by omega) [])
                rw [hsh] at hc
                rcases pyFloat_frac pre e1 e2 hpre he2 with hn | ⟨v, hv, hcv⟩
                · rw [hn] at hc; exact absurd hc (by simp)
                · rw [hv] at hc
                  simp only [Option.some.injEq] at hc
                  exact hc ▸ hcv
            · exact absurd h (by simp)
          · simp only [Option.some.injEq] at h
            subst h
            exact ⟨hdate, isCent_zero, isCent_zero, hbcent⟩
        · simp only [Option.some.injEq] at h
          subst h
          exact ⟨hdate, isCent_zero, isCent_zero, hbcent⟩

/-- Induction over the TymeBank line loop. -/
theorem tymeExtractAux_shape :
    ∀ (lines : List (List Char)) (lb : Option ℚ) (rows : List Row),
      (∀ b, lb = some b → isCent b) →
      tymeExtractAux lb lines = some rows →
      ∀ r ∈ rows, isDDMMYYYY r.Date = true ∧ isCent r.Debit ∧ isCent r.Credit ∧
        isCent r.Balance := by
  intro lines
  induction lines with
  | nil =>
    intro lb rows _ h
    simp only [tymeExtractAux, Option.some.injEq] at h
    subst h
    simp
  | cons l rest ih =>
    intro lb rows hlb h
    rw [tymeExtractAux] at h
    split at h
    · exact absurd h (by simp)
    · exact ih lb rows hlb h
    · rename_i x0 r ho
      split at h
      · exact absurd h (by simp)
      · rename_i rs hrs
        simp only [Option.some.injEq] at h
        subst h
        have hr := tymeProcessLine_row_shape hlb ho
        intro x hx
        rcases List.mem_cons.mp hx with rfl | hx
        · exact hr
        · exact ih (some r.Balance) rs
            (fun b hb => by
              simp only [Option.some.injEq] at hb
              exact hb ▸ hr.2.2.2) hrs x hx

/-- Concrete evaluation of the TymeBank extractor on a two-line statement:
the first transaction gets `(0, 0)`, the second is inferred from the balance
delta `1250 − 1000` as a credit of `250`. -/
theorem tyme_two_line_eval :
    tymeExtractTransactions
        ["01 Jan 2024 Opening Balance 1000.00\n02 Jan 2024 Deposit 250.00 1250.00"] =
      some [⟨"01/01/2024", "Opening Balance", 0, 0, 1000⟩,
            ⟨"02/01/2024", "Deposit", 0, 250, 1250⟩] := by
  have hparse1 : tymeParseLine "01 Jan 2024 Opening Balance 1000.00".data =
      some ("01/01/2024", "Opening Balance", [['1', '0', '0', '0', '.', '0', '0']]) := by
    decide
  have hparse2 : tymeParseLine "02 Jan 2024 Deposit 250.00 1250.00".data =
      some ("02/01/2024", "Deposit",
        [['2', '5', '0', '.', '0', '0'], ['1', '2', '5', '0', '.', '0', '0']]) := by
    decide
  have hf1 : pyFloat ['1', '0', '0', '0', '.', '0', '0'] = some 1000 := by
    simp [pyFloat, pyFloatCore, pyStrip, digitsVal, isPyWs, List.takeWhile, List.dropWhile]
  have hf3 : pyFloat ['1', '2', '5', '0', '.', '0', '0'] = some 1250 := by
    simp [pyFloat, pyFloatCore, pyStrip, digitsVal, isPyWs, List.takeWhile, List.dropWhile]
  have hp1 : tymeProcessLine none "01 Jan 2024 Opening Balance 1000.00".data =
      some (some ⟨"01/01/2024", "Opening Balance", 0, 0, 1000⟩) := by
    simp [tymeProcessLine, hparse1, hf1, create_transaction_row]
  have hp2 : tymeProcessLine (some 1000) "02 Jan 2024 Deposit 250.00 1250.00".data =
      some (some ⟨"02/01/2024", "Deposit", 0, 250, 1250⟩) := by
    simp only [tymeProcessLine, hparse2]
    norm_num [hf3, create_transaction_row, List.getLastD]
  have hdoc : docLines
      ["01 Jan 2024 Opening Balance 1000.00\n02 Jan 2024 Deposit 250.00 1250.00"] =
      ["01 Jan 2024 Opening Balance 1000.00".data,
       "02 Jan 2024 Deposit 250.00 1250.00".data] := by decide
  rw [tymeExtractTransactions, hdoc]
  simp only [tymeExtractAux, hp1, hp2]

/-! ### C1: debit/credit exclusivity -/

/-- **C1** (counterexample): a Standard Bank line carrying both a negative
payment and a positive deposit yields a single transaction with debit `100`
and credit `50`, both strictly positive. -/
theorem std_row_both_positive :
    stdExtractTransactions ["01 Jan 25 PAY -100.00 50.00 1000.00"] =
      [⟨"01/01/2025", "PAY", 100, 50, 1000⟩]
  ∧ (0 : ℚ) < 100 ∧ (0 : ℚ) < 50 := by
  refine ⟨?_, by norm_num, by norm_num⟩
  have hparse : stdParseLine "01 Jan 25 PAY -100.00 50.00 1000.00".data =
      some ("01/01/2025", "PAY",
        [['-', '1', '0', '0', '.', '0', '0'], ['5', '0', '.', '0', '0'],
         ['1', '0', '0', '0', '.', '0', '0']]) := by decide
  have c1 : clean_amount ⟨['-', '1', '0', '0', '.', '0', '0']⟩ true true = -100 := by
    have e : cleanedAmountChars ⟨['-', '1', '0', '0', '.', '0', '0']⟩ true true =
        ['-', '1', '0', '0', '.', '0', '0'] := by decide
    simp [clean_amount, e, pyFloat, pyFloatCore, pyStrip, digitsVal, isPyWs,
      List.takeWhile, List.dropWhile]
  have c2 : clean_amount ⟨['5', '0', '.', '0', '0']⟩ true true = 50 := by
    have e : cleanedAmountChars ⟨['5', '0', '.', '0', '0']⟩ true true =
        ['5', '0', '.', '0', '0'] := by decide
    simp [clean_amount, e, pyFloat, pyFloatCore, pyStrip, digitsVal, isPyWs,
      List.takeWhile, List.dropWhile]
  have c3 : clean_amount ⟨['1', '0', '0', '0', '.', '0', '0']⟩ true true = 1000 := by
    have e : cleanedAmountChars ⟨['1', '0', '0', '0', '.', '0', '0']⟩ true true =
        ['1', '0', '0', '0', '.', '0', '0'] := by decide
    simp [clean_amount, e, pyFloat, pyFloatCore, pyStrip, digitsVal, isPyWs,
      List.takeWhile, List.dropWhile]
  have hdoc : docLines ["01 Jan 25 PAY -100.00 50.00 1000.00"] =
      ["01 Jan 25 PAY -100.00 50.00 1000.00".data] := by decide
  rw [stdExtractTransactions, hdoc]
  simp only [List.filterMap_cons, List.filterMap_nil, stdProcessLine, hparse,
    Option.map_some']
  norm_num [stdResolve, c1, c2, c3, create_transaction_row, List.getLastD, List.getD]

/-- **C1** (amended): debit/credit exclusivity holds wherever the direction is
resolved from a single amount or a balance delta — always for
`determine_debit_credit_from_balance`, for Standard Bank lines without exactly
three amount tokens, for Capitec lines with at most three amount tokens, and
for every TymeBank row after the first — while column-resolved lines (Standard
Bank payments+deposits, Capitec money-in/money-out/fees, the first TymeBank
row) may set both sides. -/
theorem single_amount_rows_one_sided :
    (∀ (b : ℚ) (p a : Option ℚ),
      (determine_debit_credit_from_balance b p a).1 = 0 ∨
        (determine_debit_credit_from_balance b p a).2 = 0)
  ∧ (∀ amounts, amounts.length ≠ 3 →
      (stdResolve amounts).1 = 0 ∨ (stdResolve amounts).2 = 0)
  ∧ (∀ (prev : Option ℚ) (bal : ℚ) (amounts : List (List Char)), amounts.length ≤ 3 →
      (capitecResolve prev bal amounts).1 = 0 ∨ (capitecResolve prev bal amounts).2 = 0)
  ∧ (∀ (prevBal : ℚ) (l : List Char) (r : Row),
      tymeProcessLine (some prevBal) l = some (some r) →
        r.Debit = 0 ∨ r.Credit = 0) := by
  refine ⟨?_, ?_, ?_, ?_⟩
  · intro b p a
    rcases p with - | p
    · rcases a with - | a
      · left; rfl
      · simp only [determine_debit_credit_from_balance]
        split_ifs <;> simp
    · simp only [determine_debit_credit_from_balance]
      split_ifs <;> simp
  · intro amounts hne
    simp only [stdResolve, hne, if_false]
    split_ifs <;> simp
  · intro prev bal amounts hle
    rcases prev with - | p <;>
      · simp only [capitecResolve, if_neg (show ¬4 ≤ amounts.length by omega)]
        split_ifs <;> simp
  · intro prevBal l r h
    simp only [tymeProcessLine] at h
    split at h
    · exact absurd h (by simp)
    · split at h
      · exact absurd h (by simp)
      · split at h <;>
        · simp only [Option.some.injEq] at h
          subst h
          first
            | exact Or.inl rfl
            | exact Or.inr rfl

/-- Witness for `single_amount_rows_one_sided` at concrete inputs, including a
TymeBank balance-delta row. -/
theorem single_amount_rows_one_sided_witness :
    ((determine_debit_credit_from_balance 1250 (some 1000) none).1 = 0 ∨
      (determine_debit_credit_from_balance 1250 (some 1000) none).2 = 0)
  ∧ ((stdResolve []).1 = 0 ∨ (stdResolve []).2 = 0)
  ∧ ((capitecResolve none 0 []).1 = 0 ∨ (capitecResolve none 0 []).2 = 0)
  ∧ ((⟨"02/01/2024", "Deposit", 0, 250, 1250⟩ : Row).Debit = 0 ∨
      (⟨"02/01/2024", "Deposit", 0, 250, 1250⟩ : Row).Credit = 0) := by
  have hparse2 : tymeParseLine "02 Jan 2024 Deposit 250.00 1250.00".data =
      some ("02/01/2024", "Deposit",
        [['2', '5', '0', '.', '0', '0'], ['1', '2', '5', '0', '.', '0', '0']]) := by
    decide
  have hf3 : pyFloat ['1', '2', '5', '0', '.', '0', '0'] = some 1250 := by
    simp [pyFloat, pyFloatCore, pyStrip, digitsVal, isPyWs, List.takeWhile, List.dropWhile]
  have hp2 : tymeProcessLine (some 1000) "02 Jan 2024 Deposit 250.00 1250.00".data =
      some (some ⟨"02/01/2024", "Deposit", 0, 250, 1250⟩) := by
    simp only [tymeProcessLine, hparse2]
    norm_num [hf3, create_transaction_row, List.getLastD]
  exact ⟨single_amount_rows_one_sided.1 1250 (some 1000) none,
    single_amount_rows_one_sided.2.1 [] (by decide),
    single_amount_rows_one_sided.2.2.1 none 0 [] (by decide),
    single_amount_rows_one_sided.2.2.2 1000 _ _ hp2⟩

/-! ### src/services/summary.py

A transaction DataFrame is its row list plus an optional `Source` column (the
column added by the combined-ledger path).  Pandas timestamps are represented
by proleptic-Gregorian day ordinals; `pd.to_datetime(..., dayfirst=True)` is
modelled on the `D/M/YYYY` slash dates the extractors produce, with calendar
validation (an unparsable date raises, modelled by `none`); the `strftime`
serialization of `start_date`/`end_date` is not modelled — those fields carry
the day ordinals. -/

structure DFrame where
  rows : List Row
  sourceCol : Option (List String)

def isLeapYear (y : ℕ) : Bool :=
  y % 4 = 0 && (y % 100 ≠ 0 || y % 400 = 0)

def daysInMonth (y m : ℕ) : ℕ :=
  if m = 2 then (if isLeapYear y then 29 else 28)
  else if m = 4 ∨ m = 6 ∨ m = 9 ∨ m = 11 then 30
  else 31

/-- Days in the months of year `y` strictly before month `m`. -/
def monthOffsetDays (y m : ℕ) : ℕ :=
  (List.range (m - 1)).foldl (fun a i => a + daysInMonth y (i + 1)) 0

/-- Proleptic-Gregorian day ordinal (Rata Die) of `y-m-d`. -/
def rataDie (y m d : ℕ) : ℕ :=
  365 * (y - 1) + (y - 1) / 4 - (y - 1) / 100 + (y - 1) / 400 + monthOffsetDays y m + d

/-- `pd.to_datetime(s, dayfirst=True)` on the pipeline's `D/M/YYYY` strings:
the `(year, month, day)` triple, or `none` when the string is not such a date
(pandas raises). -/
def parse_date_dayfirst (s : String) : Option (ℕ × ℕ × ℕ) :=
  match splitOnChar '/' s.data with
  | [ds, ms, ys] =>
    if ds ≠ [] ∧ ds.all Char.isDigit ∧ ms ≠ [] ∧ ms.all Char.isDigit ∧
        ys ≠ [] ∧ ys.all Char.isDigit then
      let d := digitsVal ds
      let m := digitsVal ms
      let y := digitsVal ys
      if 1 ≤ m ∧ m ≤ 12 ∧ 1 ≤ d ∧ d ≤ daysInMonth y m ∧ 1 ≤ y then some (y, m, d)
      else none
    else none
  | _ => none

/-- The day ordinal of a parsed date. -/
def dateOrdinal (x : ℕ × ℕ × ℕ) : ℕ := rataDie x.1 x.2.1 x.2.2

/-- The `(year, month)` period key of a parsed date (`dt.to_period("M")`). -/
def monthKey (x : ℕ × ℕ × ℕ) : ℕ × ℕ := (x.1, x.2.1)

def listMinN (l : List ℕ) : ℕ := l.foldl min (l.headD 0)

def listMaxN (l : List ℕ) : ℕ := l.foldl max (l.headD 0)

def listMinQ (l : List ℚ) : ℚ := l.foldl min (l.headD 0)

def listMaxQ (l : List ℚ) : ℚ := l.foldl max (l.headD 0)

/-- `Summary` (summary.py lines 72-88). -/
structure Summary where
  total_debits : ℚ
  total_credits : ℚ
  net_movement : ℚ
  ending_balance : ℚ
  transaction_count : ℕ
deriving DecidableEq, Repr

/-- `calculate_summary` (summary.py lines 91-120). -/
def calculate_summary (df : DFrame) : Summary :=
  if df.rows.isEmpty then
    { total_debits := 0, total_credits := 0, net_movement := 0,
      ending_balance := 0, transaction_count := 0 }
  else
    let total_debits := (df.rows.map Row.Debit).sum
    let total_credits := (df.rows.map Row.Credit).sum
    { total_debits := total_debits
      total_credits := total_credits
      net_movement := total_credits - total_debits
      ending_balance :=
        match df.rows.getLast? with
        | some r => r.Balance
        | none => 0
      transaction_count := df.rows.length }

/-- `CoverageMetrics` (summary.py lines 9-29); `start_date`/`end_date` carry
day ordinals (see section comment). -/
structure CoverageMetrics where
  start_date : Option ℕ
  end_date : Option ℕ
  days_covered : ℤ
  distinct_months : ℕ
  transaction_count : ℕ
  accounts_detected : ℕ
  missing_date_gaps : ℤ
deriving DecidableEq, Repr

/-- `calculate_coverage` (summary.py lines 123-170); `none` models the
`pd.to_datetime` exception on an unparsable date. -/
def calculate_coverage (df : DFrame) : Option CoverageMetrics :=
  if df.rows.isEmpty then
    some { start_date := none, end_date := none, days_covered := 0,
           distinct_months := 0, transaction_count := 0, accounts_detected := 0,
           missing_date_gaps := 0 }
  else
    match df.rows.mapM (fun r => parse_date_dayfirst r.Date) with
    | none => none
    | some ds =>
      let ords := ds.map dateOrdinal
      let start_date := listMinN ords
      let end_date := listMaxN ords
      let days_covered : ℤ := (end_date : ℤ) - (start_date : ℤ) + 1
      let distinct_months := ((ds.map monthKey).dedup).length
      let unique_dates := ords.dedup.length
      some { start_date := some start_date
             end_date := some end_date
             days_covered := days_covered
             distinct_months := distinct_months
             transaction_count := df.rows.length
             accounts_detected :=
               match df.sourceCol with
               | some col => col.dedup.length
               | none => 1
             missing_date_gaps := days_covered - (unique_dates : ℤ) }

/-- `RevenueMetrics` (summary.py lines 49-68). -/
structure RevenueMetrics where
  total_credits : ℚ
  avg_monthly_credits : ℚ
  lowest_month_credits : ℚ
  highest_month_credits : ℚ
  revenue_volatility_pct : Option ℚ
  top_5_credit_concentration_pct : Option ℚ
  largest_single_credit : ℚ
deriving DecidableEq, Repr

/-- `df_with_month.groupby("Month")["Credit"].sum()` over the parsed month
keys: the per-month credit totals, one entry per distinct month. -/
def monthlyCredits (rows : List Row) (ds : List (ℕ × ℕ × ℕ)) : List ℚ :=
  ((ds.map monthKey).dedup).map fun k =>
    (((rows.zip ds).filter fun p => decide (monthKey p.2 = k)).map fun p => p.1.Credit).sum

/-- `df["Credit"].nlargest(5).sum()`: the five largest individual credits. -/
def top5CreditsSum (rows : List Row) : ℚ :=
  (((rows.map Row.Credit).mergeSort fun a b => decide (b ≤ a)).take 5).sum

/-- `calculate_revenue` (summary.py lines 211-273); `none` models the
`pd.to_datetime` exception on an unparsable date. -/
def calculate_revenue (df : DFrame) : Option RevenueMetrics :=
  if df.rows.isEmpty then
    some { total_credits := 0, avg_monthly_credits := 0, lowest_month_credits := 0,
           highest_month_credits := 0, revenue_volatility_pct := none,
           top_5_credit_concentration_pct := none, largest_single_credit := 0 }
  else
    let total_credits := (df.rows.map Row.Credit).sum
    let largest_single_credit := listMaxQ (df.rows.map Row.Credit)
    match df.rows.mapM (fun r => parse_date_dayfirst r.Date) with
    | none => none
    | some ds =>
      let monthly_credits := monthlyCredits df.rows ds
      let distinct_months := monthly_credits.length
      let avg_monthly_credits :=
        if 0 < distinct_months then total_credits / (distinct_months : ℚ) else 0
      let lowest_month_credits :=
        if 0 < distinct_months then listMinQ monthly_credits else 0
      let highest_month_credits :=
        if 0 < distinct_months then listMaxQ monthly_credits else 0
      let revenue_volatility_pct :=
        if 0 < distinct_months then
          if 0 < avg_monthly_credits then
            some ((highest_month_credits - lowest_month_credits) / avg_monthly_credits * 100)
          else none
        else none
      let top_5_credit_concentration_pct :=
        if 0 < total_credits then some (top5CreditsSum df.rows / total_credits * 100)
        else none
      some { total_credits := total_credits
             avg_monthly_credits := avg_monthly_credits
             lowest_month_credits := lowest_month_credits
             highest_month_credits := highest_month_credits
             revenue_volatility_pct := revenue_volatility_pct
             top_5_credit_concentration_pct := top_5_credit_concentration_pct
             largest_single_credit := largest_single_credit }

/-! ### C2: summary totals -/

/-- **C2**: the summary satisfies `net_movement = total_credits − total_debits`
exactly, `transaction_count` is the number of rows, and for a nonempty ledger
`ending_balance` is the last row's balance in document order. -/
theorem calculate_summary_spec (df : DFrame) :
    (calculate_summary df).net_movement =
        (calculate_summary df).total_credits - (calculate_summary df).total_debits
  ∧ (calculate_summary df).transaction_count = df.rows.length
  ∧ ∀ r, df.rows.getLast? = some r → (calculate_summary df).ending_balance = r.Balance := by
  unfold calculate_summary
  by_cases he : df.rows.isEmpty = true
  · rw [if_pos he]
    rw [List.isEmpty_iff] at he
    refine ⟨by norm_num, by rw [he]; rfl, ?_⟩
    intro r hr
    rw [he] at hr
    simp at hr
  · rw [if_neg he]
    refine ⟨rfl, rfl, ?_⟩
    intro r hr
    simp only [hr]

/-- Witness for `calculate_summary_spec`: the spec's Scenario A ledger. -/
theorem calculate_summary_spec_witness :
    (calculate_summary ⟨[⟨"01/02/2024", "Salary", 0, 15000, 15000⟩,
        ⟨"05/02/2024", "Groceries", 500, 0, 14500⟩], none⟩).net_movement =
      (calculate_summary ⟨[⟨"01/02/2024", "Salary", 0, 15000, 15000⟩,
        ⟨"05/02/2024", "Groceries", 500, 0, 14500⟩], none⟩).total_credits -
      (calculate_summary ⟨[⟨"01/02/2024", "Salary", 0, 15000, 15000⟩,
        ⟨"05/02/2024", "Groceries", 500, 0, 14500⟩], none⟩).total_debits
  ∧ (calculate_summary ⟨[⟨"01/02/2024", "Salary", 0, 15000, 15000⟩,
        ⟨"05/02/2024", "Groceries", 500, 0, 14500⟩], none⟩).transaction_count =
      ([⟨"01/02/2024", "Salary", 0, 15000, 15000⟩,
        (⟨"05/02/2024", "Groceries", 500, 0, 14500⟩ : Row)]).length
  ∧ (calculate_summary ⟨[⟨"01/02/2024", "Salary", 0, 15000, 15000⟩,
        ⟨"05/02/2024", "Groceries", 500, 0, 14500⟩], none⟩).ending_balance =
      (⟨"05/02/2024", "Groceries", 500, 0, 14500⟩ : Row).Balance :=
  ⟨(calculate_summary_spec _).1, (calculate_summary_spec _).2.1,
   (calculate_summary_spec _).2.2 _ rfl⟩

/-! ### C6: coverage metrics -/

theorem foldl_min_le_init (l : List ℕ) : ∀ a : ℕ, l.foldl min a ≤ a := by
  induction l with
  | nil => intro a; simp
  | cons b t ih => intro a; exact le_trans (ih (min a b)) (min_le_left a b)

theorem foldl_min_le_mem (l : List ℕ) : ∀ a x : ℕ, x ∈ l → l.foldl min a ≤ x := by
  induction l with
  | nil => intro a x hx; simp at hx
  | cons b t ih =>
    intro a x hx
    rcases List.mem_cons.mp hx with rfl | hx
    · exact le_trans (foldl_min_le_init t (min a x)) (min_le_right a x)
    · exact ih (min a b) x hx

theorem le_foldl_max_init (l : List ℕ) : ∀ a : ℕ, a ≤ l.foldl max a := by
  induction l with
  | nil => intro a; simp
  | cons b t ih => intro a; exact le_trans (le_max_left a b) (ih (max a b))

theorem le_foldl_max_mem (l : List ℕ) : ∀ a x : ℕ, x ∈ l → x ≤ l.foldl max a := by
  induction l with
  | nil => intro a x hx; simp at hx
  | cons b t ih =>
    intro a x hx
    rcases List.mem_cons.mp hx with rfl | hx
    · exact le_trans (le_max_right a x) (le_foldl_max_init t (max a x))
    · exact ih (max a b) x hx

theorem listMinN_le {l : List ℕ} {x : ℕ} (hx : x ∈ l) : listMinN l ≤ x :=
  foldl_min_le_mem l _ x hx

theorem le_listMaxN {l : List ℕ} {x : ℕ} (hx : x ∈ l) : x ≤ listMaxN l :=
  le_foldl_max_mem l _ x hx

theorem listMinN_le_listMaxN {l : List ℕ} (h : l ≠ []) : listMinN l ≤ listMaxN l := by
  cases l with
  | nil => exact absurd rfl h
  | cons a t =>
    exact le_trans (listMinN_le (List.mem_cons_self a t))
      (le_listMaxN (List.mem_cons_self a t))

/-- Distinct values of a nonempty list of day ordinals fit in the inclusive
span from minimum to maximum. -/
theorem dedup_length_le_span {l : List ℕ} : l.dedup.length ≤ listMaxN l - listMinN l + 1 := by
  have hnd := List.nodup_dedup l
  have hsub : l.dedup.toFinset ⊆ Finset.Icc (listMinN l) (listMaxN l) := by
    intro x hx
    rw [List.mem_toFinset, List.mem_dedup] at hx
    exact Finset.mem_Icc.mpr ⟨listMinN_le hx, le_listMaxN hx⟩
  have hcard := Finset.card_le_card hsub
  rw [Nat.card_Icc, List.toFinset_card_of_nodup hnd] at hcard
  omega

/-- When every day in the span appears, the distinct count equals the span. -/
theorem dedup_length_eq_span {l : List ℕ} (h : l ≠ [])
    (hall : ∀ n, listMinN l ≤ n → n ≤ listMaxN l → n ∈ l) :
    l.dedup.length = listMaxN l - listMinN l + 1 := by
  have hnd := List.nodup_dedup l
  have hsub : l.dedup.toFinset ⊆ Finset.Icc (listMinN l) (listMaxN l) := by
    intro x hx
    rw [List.mem_toFinset, List.mem_dedup] at hx
    exact Finset.mem_Icc.mpr ⟨listMinN_le hx, le_listMaxN hx⟩
  have hsup : Finset.Icc (listMinN l) (listMaxN l) ⊆ l.dedup.toFinset := by
    intro x hx
    rw [Finset.mem_Icc] at hx
    rw [List.mem_toFinset, List.mem_dedup]
    exact hall x hx.1 hx.2
  have heq := Finset.Subset.antisymm hsub hsup
  have hminmax := listMinN_le_listMaxN h
  have hcard : l.dedup.toFinset.card = (Finset.Icc (listMinN l) (listMaxN l)).card := by
    rw [heq]
  rw [Nat.card_Icc, List.toFinset_card_of_nodup hnd] at hcard
  omega

theorem mapM_some_length {α β : Type} (f : α → Option β) :
    ∀ (l : List α) (l' : List β), l.mapM f = some l' → l'.length = l.length := by
  intro l
  induction l with
  | nil =>
    intro l' h
    simp only [List.mapM_nil, pure] at h
    cases h
    rfl
  | cons a t ih =>
    intro l' h
    rw [List.mapM_cons] at h
    cases hfa : f a with
    | none => rw [hfa] at h; simp at h
    | some b =>
      rw [hfa] at h
      cases hmt : t.mapM f with
      | none => rw [hmt] at h; simp at h
      | some bs =>
        rw [hmt] at h
        simp only [Option.bind_some, Option.some_bind, pure, Option.some.injEq] at h
        cases h
        simp [ih bs hmt]

/-- **C6**: for a nonempty ledger whose dates all parse (day-first),
`days_covered` is the inclusive ordinal span `max − min + 1`,
`missing_date_gaps` is `days_covered` minus the number of distinct dates and is
never negative, it is `0` when every day in the span has activity, and
`accounts_detected` counts distinct `Source` labels when the column is present
and is `1` otherwise. -/
theorem calculate_coverage_spec (df : DFrame) (ds : List (ℕ × ℕ × ℕ))
    (hne : df.rows ≠ [])
    (hds : df.rows.mapM (fun r => parse_date_dayfirst r.Date) = some ds) :
    ∃ cm, calculate_coverage df = some cm
      ∧ cm.days_covered =
          (listMaxN (ds.map dateOrdinal) : ℤ) - (listMinN (ds.map dateOrdinal) : ℤ) + 1
      ∧ cm.missing_date_gaps =
          cm.days_covered - ((ds.map dateOrdinal).dedup.length : ℤ)
      ∧ 0 ≤ cm.missing_date_gaps
      ∧ ((∀ n, listMinN (ds.map dateOrdinal) ≤ n → n ≤ listMaxN (ds.map dateOrdinal) →
            n ∈ ds.map dateOrdinal) → cm.missing_date_gaps = 0)
      ∧ cm.accounts_detected =
          (match df.sourceCol with
           | some col => col.dedup.length
           | none => 1)
      ∧ cm.transaction_count = df.rows.length := by
  have he : ¬df.rows.isEmpty = true := by simpa [List.isEmpty_iff] using hne
  have hdsne : ds ≠ [] := by
    intro h0
    have := mapM_some_length _ _ _ hds
    rw [h0] at this
    exact hne (List.length_eq_zero.mp this.symm)
  have hordne : ds.map dateOrdinal ≠ [] := by simpa using hdsne
  have hminmax := listMinN_le_listMaxN hordne
  have hspan := dedup_length_le_span (l := ds.map dateOrdinal)
  simp only [calculate_coverage, if_neg he, hds]
  refine ⟨_, rfl, rfl, rfl, ?_, ?_, rfl, rfl⟩
  · simp only
    omega
  · intro hall
    have heq := dedup_length_eq_span hordne hall
    simp only
    omega

/-- Witness for `calculate_coverage_spec` on a three-row, two-account ledger. -/
theorem calculate_coverage_spec_witness :
    ∃ cm, calculate_coverage ⟨[⟨"01/01/2024", "a", 0, 0, 0⟩, ⟨"03/01/2024", "b", 0, 0, 0⟩,
        ⟨"03/01/2024", "c", 0, 0, 0⟩], some ["A", "B", "A"]⟩ = some cm
      ∧ cm.days_covered =
          (listMaxN ([(2024, 1, 1), (2024, 1, 3), (2024, 1, 3)].map dateOrdinal) : ℤ) -
            (listMinN ([(2024, 1, 1), (2024, 1, 3), (2024, 1, 3)].map dateOrdinal) : ℤ) + 1
      ∧ cm.missing_date_gaps = cm.days_covered -
          ((([(2024, 1, 1), (2024, 1, 3), (2024, 1, 3)].map dateOrdinal).dedup.length : ℤ))
      ∧ 0 ≤ cm.missing_date_gaps
      ∧ ((∀ n, listMinN ([(2024, 1, 1), (2024, 1, 3), (2024, 1, 3)].map dateOrdinal) ≤ n →
            n ≤ listMaxN ([(2024, 1, 1), (2024, 1, 3), (2024, 1, 3)].map dateOrdinal) →
            n ∈ [(2024, 1, 1), (2024, 1, 3), (2024, 1, 3)].map dateOrdinal) →
          cm.missing_date_gaps = 0)
      ∧ cm.accounts_detected =
          (match (some ["A", "B", "A"] : Option (List String)) with
           | some col => col.dedup.length
           | none => 1)
      ∧ cm.transaction_count = ([⟨"01/01/2024", "a", 0, 0, 0⟩, ⟨"03/01/2024", "b", 0, 0, 0⟩,
          (⟨"03/01/2024", "c", 0, 0, 0⟩ : Row)]).length :=
  calculate_coverage_spec _ [(2024, 1, 1), (2024, 1, 3), (2024, 1, 3)]
    (by decide) (by decide)

/-! ### C7: revenue metrics -/

theorem dedup_const {α : Type} [DecidableEq α] (k : α) :
    ∀ l : List α, l ≠ [] → (∀ x ∈ l, x = k) → l.dedup = [k] := by
  intro l
  induction l with
  | nil => intro h; exact absurd rfl h
  | cons a t ih =>
    intro _ hall
    have ha : a = k := hall a (by simp)
    subst ha
    cases t with
    | nil => simp
    | cons b t2 =>
      have hb : b = a := (hall b (by simp)).symm ▸ rfl
      have hmem : a ∈ b :: t2 := by
        rw [hall b (by simp)]
        exact List.mem_cons_self _ _
      rw [List.dedup_cons_of_mem hmem]
      exact ih (by simp) fun x hx => hall x (by simp [hx])

/-- **C7** (counterexample): a one-row ledger — all transactions in one
`(year, month)` — with zero credit has `revenue_volatility_pct = None`, not
`0`, because the monthly average is `0`. -/
theorem revenue_single_month_zero_credit :
    (∀ x ∈ [((2024 : ℕ), (2 : ℕ), (1 : ℕ))], monthKey x = (2024, 2))
  ∧ ([⟨"01/02/2024", "x", 5, 0, 100⟩] : List Row).mapM
      (fun r => parse_date_dayfirst r.Date) = some [(2024, 2, 1)]
  ∧ calculate_revenue ⟨[⟨"01/02/2024", "x", 5, 0, 100⟩], none⟩ =
      some ⟨0, 0, 0, 0, none, none, 0⟩ := by
  refine ⟨by decide, by decide, ?_⟩
  have hp : ([⟨"01/02/2024", "x", 5, 0, 100⟩] : List Row).mapM
      (fun r => parse_date_dayfirst r.Date) = some [(2024, 2, 1)] := by decide
  simp only [calculate_revenue, hp]
  norm_num [monthlyCredits, monthKey, listMaxQ, listMinQ, List.dedup]

/-- **C7** (amended): for a nonempty all-parsing ledger, the revenue metrics
satisfy: `avg_monthly_credits = total ÷ month count`; when the average is
positive, volatility is `(max month − min month) ÷ average × 100`, and when
the average is zero it is null; when total credits are positive, top-5
concentration is `(sum of 5 largest credits) ÷ total × 100`, and when the
total is zero it is null; a single-month ledger with positive total credits
has volatility `0` (with zero total credits the average is `0` and volatility
is null, per the counterexample). -/
theorem calculate_revenue_spec (df : DFrame) (ds : List (ℕ × ℕ × ℕ))
    (hne : df.rows ≠ [])
    (hds : df.rows.mapM (fun r => parse_date_dayfirst r.Date) = some ds) :
    ∃ m, calculate_revenue df = some m
      ∧ m.total_credits = (df.rows.map Row.Credit).sum
      ∧ m.avg_monthly_credits = m.total_credits / ((monthlyCredits df.rows ds).length : ℚ)
      ∧ (0 < m.avg_monthly_credits → m.revenue_volatility_pct =
          some ((listMaxQ (monthlyCredits df.rows ds) - listMinQ (monthlyCredits df.rows ds)) /
            m.avg_monthly_credits * 100))
      ∧ (m.avg_monthly_credits = 0 → m.revenue_volatility_pct = none)
      ∧ (0 < m.total_credits → m.top_5_credit_concentration_pct =
          some (top5CreditsSum df.rows / m.total_credits * 100))
      ∧ (m.total_credits = 0 → m.top_5_credit_concentration_pct = none)
      ∧ (∀ k, (∀ x ∈ ds, monthKey x = k) → 0 < m.total_credits →
          m.revenue_volatility_pct = some 0) := by
  have he : ¬df.rows.isEmpty = true := by simpa [List.isEmpty_iff] using hne
  have hdsne : ds ≠ [] := by
    intro h0
    have := mapM_some_length _ _ _ hds
    rw [h0] at this
    exact hne (List.length_eq_zero.mp this.symm)
  have hkeysne : ds.map monthKey ≠ [] := by simpa using hdsne
  have hdedne : (ds.map monthKey).dedup ≠ [] := by
    intro h0
    cases hk : ds.map monthKey with
    | nil => exact hkeysne hk
    | cons a t =>
      have : a ∈ (ds.map monthKey).dedup := by
        rw [List.mem_dedup, hk]
        exact List.mem_cons_self a t
      rw [h0] at this
      simp at this
  have hM : 0 < (monthlyCredits df.rows ds).length := by
    rw [monthlyCredits, List.length_map]
    exact List.length_pos.mpr hdedne
  simp only [calculate_revenue, if_neg he, hds, if_pos hM]
  refine ⟨_, rfl, rfl, rfl, ?_, ?_, ?_, ?_, ?_⟩
  · intro havg
    simp only at havg ⊢
    rw [if_pos havg]
  · intro havg
    simp only at havg ⊢
    rw [if_neg (by rw [havg]; exact lt_irrefl 0)]
  · intro htot
    simp only at htot ⊢
    rw [if_pos htot]
  · intro htot
    simp only at htot ⊢
    rw [if_neg (by rw [htot]; exact lt_irrefl 0)]
  · intro k hk htot
    simp only at htot ⊢
    have hded : (ds.map monthKey).dedup = [k] := by
      refine dedup_const k _ hkeysne ?_
      intro x hx
      obtain ⟨y, hy, rfl⟩ := List.mem_map.mp hx
      exact hk y hy
    have hmono : monthlyCredits df.rows ds =
        [(((df.rows.zip ds).filter fun p => decide (monthKey p.2 = k)).map
            fun p => p.1.Credit).sum] := by
      rw [monthlyCredits, hded]
      rfl
    have hlen1 : ((monthlyCredits df.rows ds).length : ℚ) = 1 := by
      rw [hmono]
      norm_num
    have hc : 0 < (df.rows.map Row.Credit).sum / ((monthlyCredits df.rows ds).length : ℚ) := by
      rw [hlen1, div_one]
      exact htot
    rw [if_pos hc, hmono]
    simp [listMaxQ, listMinQ]

/-- Witness for `calculate_revenue_spec` on a two-month ledger. -/
theorem calculate_revenue_spec_witness :
    ∃ m, calculate_revenue ⟨[⟨"01/01/2024", "a", 0, 10, 0⟩,
        ⟨"05/02/2024", "b", 0, 30, 0⟩], none⟩ = some m
      ∧ m.total_credits = (([⟨"01/01/2024", "a", 0, 10, 0⟩,
          (⟨"05/02/2024", "b", 0, 30, 0⟩ : Row)]).map Row.Credit).sum
      ∧ m.avg_monthly_credits = m.total_credits /
          ((monthlyCredits [⟨"01/01/2024", "a", 0, 10, 0⟩, ⟨"05/02/2024", "b", 0, 30, 0⟩]
            [(2024, 1, 1), (2024, 2, 5)]).length : ℚ)
      ∧ (0 < m.avg_monthly_credits → m.revenue_volatility_pct =
          some ((listMaxQ (monthlyCredits [⟨"01/01/2024", "a", 0, 10, 0⟩,
              ⟨"05/02/2024", "b", 0, 30, 0⟩] [(2024, 1, 1), (2024, 2, 5)]) -
            listMinQ (monthlyCredits [⟨"01/01/2024", "a", 0, 10, 0⟩,
              ⟨"05/02/2024", "b", 0, 30, 0⟩] [(2024, 1, 1), (2024, 2, 5)])) /
            m.avg_monthly_credits * 100))
      ∧ (m.avg_monthly_credits = 0 → m.revenue_volatility_pct = none)
      ∧ (0 < m.total_credits → m.top_5_credit_concentration_pct =
          some (top5CreditsSum [⟨"01/01/2024", "a", 0, 10, 0⟩,
            ⟨"05/02/2024", "b", 0, 30, 0⟩] / m.total_credits * 100))
      ∧ (m.total_credits = 0 → m.top_5_credit_concentration_pct = none)
      ∧ (∀ k, (∀ x ∈ [((2024 : ℕ), (1 : ℕ), (1 : ℕ)), (2024, 2, 5)], monthKey x = k) →
          0 < m.total_credits → m.revenue_volatility_pct = some 0) :=
  calculate_revenue_spec _ [(2024, 1, 1), (2024, 2, 5)] (by decide) (by decide)

/-! ### C8 for the Standard Bank and Capitec extractors

Their amount tokens go through `clean_amount`; on tokens of the matched shapes
the cleaning pipeline reduces to comma/space removal, and the parsed value is a
whole number of hundredths. -/

theorem removeCr_eq_self {l : List Char} (h : ∀ c ∈ l, c ≠ 'C') : removeCr l = l := by
  induction l with
  | nil => rfl
  | cons c t ih =>
    rw [removeCr.eq_def]
    split
    · next heq => exact absurd heq (by simp)
    · next heq =>
      exfalso
      have hc : c = 'C' := by injection heq
      exact h c (List.mem_cons_self c t) hc
    · next heq =>
      injection heq with h1 h2
      subst h1
      subst h2
      exact congrArg (c :: ·) (ih fun x hx => h x (List.mem_cons_of_mem c hx))

theorem smw_eq_self {l : List Char} (h : ∀ c ∈ l, isPyWs c = false) :
    ∀ b, smw b l = l := by
  induction l with
  | nil => intro b; rfl
  | cons c t ih =>
    intro b
    rw [smw]
    rw [if_neg (by simp [h c (List.mem_cons_self c t)])]
    have ht : ∀ x ∈ t, isPyWs x = false := fun x hx => h x (List.mem_cons_of_mem c hx)
    by_cases hc : c = '-'
    · rw [if_pos hc, hc, ih ht]
    · rw [if_neg hc, ih ht]

theorem pyStrip_eq_self {l : List Char} (h : ∀ c ∈ l, isPyWs c = false) :
    pyStrip l = l := by
  unfold pyStrip
  have h1 : l.dropWhile isPyWs = l := by
    cases l with
    | nil => rfl
    | cons c t => rw [List.dropWhile_cons, if_neg (by simp [h c (List.mem_cons_self c t)])]
  rw [h1]
  have h2 : l.reverse.dropWhile isPyWs = l.reverse := by
    cases hr : l.reverse with
    | nil => rfl
    | cons c t =>
      rw [List.dropWhile_cons,
        if_neg (by simp [h c (by rw [← List.mem_reverse, hr]; exact List.mem_cons_self c t)])]
  rw [h2, List.reverse_reverse]

theorem digit_bne {c x : Char} (h : c.isDigit = true) (hx : x.isDigit = false) :
    (c != x) = true := by
  rw [bne_iff_ne]
  rintro rfl
  rw [h] at hx
  cases hx

theorem digit_ne {c x : Char} (h : c.isDigit = true) (hx : x.isDigit = false) :
    c ≠ x := by
  rintro rfl
  rw [h] at hx
  cases hx

/-- A `.d₁d₂` tail passes any `x`-removing filter for non-digit non-dot `x`. -/
theorem tail3_filter (d1 d2 x : Char) (hd1 : d1.isDigit = true)
    (hd2 : d2.isDigit = true) (hx : x.isDigit = false) (hdot : ('.' != x) = true) :
    ['.', d1, d2].filter (· != x) = ['.', d1, d2] := by
  simp [hdot, digit_bne hd1 hx, digit_bne hd2 hx]

/-- `pyFloat` on an explicitly negated whitespace-free token defers to
`pyFloatCore` and negates. -/
theorem pyFloat_cons_neg (rest : List Char)
    (h : pyStrip ('-' :: rest) = '-' :: rest) :
    pyFloat ('-' :: rest) = (pyFloatCore rest).map Neg.neg := by
  simp only [pyFloat, h]

/-- `clean_amount` (with the default flags) on any token of the form
`[-]body.d₁d₂`, where the body consists of digits, commas and spaces and
`d₁, d₂` are digits, yields a whole number of hundredths. -/
theorem clean_amount_cent_of_token (sign : Bool) (body : List Char) (d1 d2 : Char)
    (hbody : ∀ c ∈ body, c.isDigit = true ∨ c = ',' ∨ c = ' ')
    (hd1 : d1.isDigit = true) (hd2 : d2.isDigit = true) :
    isCent (clean_amount ⟨(if sign then ['-'] else []) ++ body ++ ['.', d1, d2]⟩ true true) := by
  set sgn : List Char := if sign then ['-'] else [] with hsgn
  set D : List Char := (body.filter (· != ' ')).filter (· != ',') with hD
  have hDdig : ∀ c ∈ D, c.isDigit = true := by
    intro c hc
    rw [hD] at hc
    simp only [List.mem_filter, bne_iff_ne, ne_eq] at hc
    obtain ⟨⟨hcb, hcs⟩, hcc⟩ := hc
    rcases hbody c hcb with h | h | h
    · exact h
    · exact absurd h hcc
    · exact absurd h hcs
  have hsgnC : ∀ c ∈ sgn, c = '-' := by
    intro c hc
    rw [hsgn] at hc
    cases sign <;> simp_all
  have e1 : cleanedAmountChars ⟨sgn ++ body ++ ['.', d1, d2]⟩ true true =
      subMinusWs (pyStrip (removeCr
        ((((sgn ++ body ++ ['.', d1, d2]).filter (· != ' ')).filter
          (· != ',')).filter (· != 'R')))) := rfl
  have e2 : (((sgn ++ body ++ ['.', d1, d2]).filter (· != ' ')).filter
      (· != ',')).filter (· != 'R') = sgn ++ D ++ ['.', d1, d2] := by
    simp only [List.filter_append]
    have hsf : ∀ p : Char → Bool, p '-' = true → sgn.filter p = sgn := by
      intro p hp
      rw [hsgn]
      cases sign <;> simp [hp]
    rw [hsf _ (by decide), hsf _ (by decide), hsf _ (by decide),
      tail3_filter d1 d2 ' ' hd1 hd2 (by decide) (by decide),
      tail3_filter d1 d2 ',' hd1 hd2 (by decide) (by decide),
      tail3_filter d1 d2 'R' hd1 hd2 (by decide) (by decide), ← hD]
    rw [List.filter_eq_self.mpr fun c hc => digit_bne (hDdig c hc) (by decide)]
  have hallchars : ∀ c ∈ sgn ++ D ++ ['.', d1, d2],
      c = '-' ∨ c.isDigit = true ∨ c = '.' := by
    intro c hc
    simp only [List.append_assoc, List.mem_append] at hc
    rcases hc with hc | hc | hc
    · exact Or.inl (hsgnC c hc)
    · exact Or.inr (Or.inl (hDdig c hc))
    · simp only [List.mem_cons, List.not_mem_nil, or_false] at hc
      rcases hc with rfl | rfl | rfl
      · exact Or.inr (Or.inr rfl)
      · exact Or.inr (Or.inl hd1)
      · exact Or.inr (Or.inl hd2)
  have hnoC : ∀ c ∈ sgn ++ D ++ ['.', d1, d2], c ≠ 'C' := by
    intro c hc
    rcases hallchars c hc with rfl | h | rfl
    · decide
    · exact digit_ne h (by decide)
    · decide
  have hnoWs : ∀ c ∈ sgn ++ D ++ ['.', d1, d2], isPyWs c = false := by
    intro c hc
    rcases hallchars c hc with rfl | h | rfl
    · decide
    · exact digit_not_pyWs h
    · decide
  have e3 : cleanedAmountChars ⟨sgn ++ body ++ ['.', d1, d2]⟩ true true =
      sgn ++ D ++ ['.', d1, d2] := by
    rw [e1, e2, removeCr_eq_self hnoC, pyStrip_eq_self hnoWs]
    exact smw_eq_self hnoWs false
  rw [clean_amount, e3]
  cases sign with
  | false =>
    simp only [hsgn, Bool.false_eq_true, if_false, List.nil_append]
    rcases pyFloat_frac D d1 d2
        (fun c hc => ⟨digit_ne (hDdig c hc) (by decide),
          digit_ne (hDdig c hc) (by decide), digit_ne (hDdig c hc) (by decide)⟩)
        (digit_not_pyWs hd2) with h | ⟨v, h, hv⟩
    · rw [h]; exact isCent_zero
    · rw [h]; exact hv
  | true =>
    simp only [hsgn, if_true, List.cons_append, List.nil_append] at hnoWs ⊢
    rw [pyFloat_cons_neg _ (pyStrip_eq_self hnoWs)]
    rcases pyFloatCore_frac D d1 d2
        (fun c hc => digit_ne (hDdig c hc) (by decide)) with h | ⟨n, m, h⟩
    · rw [h]; exact isCent_zero
    · rw [h]
      exact isCent_neg (isCent_nat_frac n m)

/-- Inversion of `matchOptMinus`: the token comes from the inner matcher,
possibly with a `-` prepended. -/
theorem matchOptMinus_inv {m : List Char → Option (List Char × List Char)}
    {cs tok r : List Char} (h : matchOptMinus m cs = some (tok, r)) :
    (∃ cs' r', m cs' = some (tok, r')) ∨
      ∃ tok' cs' r', tok = '-' :: tok' ∧ m cs' = some (tok', r') := by
  unfold matchOptMinus at h
  split at h
  · rename_i rest
    split at h
    · rename_i tok' r' hm
      simp only [Option.some.injEq, Prod.mk.injEq] at h
      obtain ⟨rfl, rfl⟩ := h
      exact Or.inr ⟨tok', rest, r', rfl, hm⟩
    · exact Or.inl ⟨_, _, h⟩
  · exact Or.inl ⟨_, _, h⟩

/-- Tokens of the comma pattern `-?[\d,]+\.\d{2}`: an optional minus, a
digit/comma body and a dot with two digits. -/
theorem commaToken_shape {cs tok r : List Char}
    (h : matchOptMinus (matchClassAmount isDigitComma) cs = some (tok, r)) :
    ∃ (sign : Bool) (body : List Char) (d1 d2 : Char),
      tok = (if sign then ['-'] else []) ++ body ++ ['.', d1, d2] ∧
      (∀ c ∈ body, c.isDigit = true ∨ c = ',' ∨ c = ' ') ∧
      d1.isDigit = true ∧ d2.isDigit = true := by
  have hcls : ∀ (c : Char), isDigitComma c = true →
      c.isDigit = true ∨ c = ',' ∨ c = ' ' := by
    intro c hc
    simp only [isDigitComma, Bool.or_eq_true, decide_eq_true_eq] at hc
    rcases hc with hc | hc
    · exact Or.inl hc
    · exact Or.inr (Or.inl hc)
  rcases matchOptMinus_inv h with ⟨cs', r', hm⟩ | ⟨tok', cs', r', rfl, hm⟩
  · obtain ⟨run, d1, d2, rfl, hrun, h1, h2, -⟩ := matchClassAmount_inv hm
    exact ⟨false, run, d1, d2, by simp, fun c hc => hcls c (hrun c hc), h1, h2⟩
  · obtain ⟨run, d1, d2, rfl, hrun, h1, h2, -⟩ := matchClassAmount_inv hm
    exact ⟨true, run, d1, d2, by simp, fun c hc => hcls c (hrun c hc), h1, h2⟩

/-- Every token of `re.findall` for the comma pattern cleans to a whole number
of hundredths. -/
theorem comma_findAll_cent {line tok : List Char}
    (h : tok ∈ findAll (matchOptMinus (matchClassAmount isDigitComma)) line) :
    isCent (clean_amount ⟨tok⟩ true true) := by
  refine findAllAux_forall
    (P := fun tok => isCent (clean_amount ⟨tok⟩ true true)) ?_ _ _ _ h
  intro cs t r hm
  obtain ⟨sign, body, d1, d2, rfl, hb, h1, h2⟩ := commaToken_shape hm
  exact clean_amount_cent_of_token sign body d1 d2 hb h1 h2

/-- Inversion of `capTail`: the token is `.d₁d₂`. -/
theorem capTail_inv {cs tok r : List Char} (h : capTail cs = some (tok, r)) :
    ∃ d1 d2, tok = ['.', d1, d2] ∧ d1.isDigit = true ∧ d2.isDigit = true := by
  unfold capTail at h
  split at h
  · rename_i d1 d2 rest
    split at h
    · rename_i hdd
      rw [Bool.and_eq_true] at hdd
      simp only [Option.some.injEq, Prod.mk.injEq] at h
      obtain ⟨rfl, -⟩ := h
      exact ⟨d1, d2, rfl, hdd.1, hdd.2⟩
    · exact absurd h (by simp)
  · exact absurd h (by simp)

/-- Inversion of `capGroups` (by fuel on the list length): the token is a
digit/space body followed by `.d₁d₂`. -/
theorem capGroups_inv_aux :
    ∀ (n : ℕ) (cs tok r : List Char), cs.length ≤ n →
      capGroups cs = some (tok, r) →
      ∃ pre d1 d2, tok = pre ++ ['.', d1, d2] ∧
        (∀ c ∈ pre, c.isDigit = true ∨ c = ' ') ∧
        d1.isDigit = true ∧ d2.isDigit = true := by
  intro n
  induction n with
  | zero =>
    intro cs tok r hlen h
    have hnil : cs = [] := List.length_eq_zero.mp (Nat.le_zero.mp hlen)
    subst hnil
    rw [show capGroups ([] : List Char) = none from rfl] at h
    exact absurd h (by simp)
  | succ n ih =>
    intro cs tok r hlen h
    rw [capGroups.eq_def] at h
    split at h
    · rename_i d1 d2 d3 rest
      split at h
      · rename_i hddd
        simp only [Bool.and_eq_true] at hddd
        split at h
        · rename_i m r' hg
          simp only [Option.some.injEq, Prod.mk.injEq] at h
          obtain ⟨rfl, rfl⟩ := h
          have hrest : rest.length ≤ n := by
            simp only [List.length_cons] at hlen
            omega
          obtain ⟨pre, e1, e2, rfl, hpre, he1, he2⟩ := ih rest m r' hrest hg
          refine ⟨' ' :: d1 :: d2 :: d3 :: pre, e1, e2, by simp, ?_, he1, he2⟩
          intro c hc
          simp only [List.mem_cons] at hc
          rcases hc with rfl | rfl | rfl | rfl | hc
          · exact Or.inr rfl
          · exact Or.inl hddd.1.1
          · exact Or.inl hddd.1.2
          · exact Or.inl hddd.2
          · exact hpre c hc
        · obtain ⟨e1, e2, rfl, h1, h2⟩ := capTail_inv h
          exact ⟨[], e1, e2, by simp, by simp, h1, h2⟩
      · obtain ⟨e1, e2, rfl, h1, h2⟩ := capTail_inv h
        exact ⟨[], e1, e2, by simp, by simp, h1, h2⟩
    · obtain ⟨e1, e2, rfl, h1, h2⟩ := capTail_inv h
      exact ⟨[], e1, e2, by simp, by simp, h1, h2⟩

theorem capGroups_inv {cs tok r : List Char} (h : capGroups cs = some (tok, r)) :
    ∃ pre d1 d2, tok = pre ++ ['.', d1, d2] ∧
      (∀ c ∈ pre, c.isDigit = true ∨ c = ' ') ∧
      d1.isDigit = true ∧ d2.isDigit = true :=
  capGroups_inv_aux cs.length cs tok r le_rfl h

/-- Inversion of `matchCapCore`: the token is a digit/space body followed by
`.d₁d₂`. -/
theorem matchCapCore_inv {cs tok r : List Char}
    (h : matchCapCore cs = some (tok, r)) :
    ∃ body d1 d2, tok = body ++ ['.', d1, d2] ∧
      (∀ c ∈ body, c.isDigit = true ∨ c = ' ') ∧
      d1.isDigit = true ∧ d2.isDigit = true := by
  have mk : ∀ (ds m tok' : List Char), (∀ c ∈ ds, c.isDigit = true) →
      tok' = ds ++ m →
      (∃ pre e1 e2, m = pre ++ ['.', e1, e2] ∧
        (∀ c ∈ pre, c.isDigit = true ∨ c = ' ') ∧
        e1.isDigit = true ∧ e2.isDigit = true) →
      ∃ body e1 e2, tok' = body ++ ['.', e1, e2] ∧
        (∀ c ∈ body, c.isDigit = true ∨ c = ' ') ∧
        e1.isDigit = true ∧ e2.isDigit = true := by
    rintro ds m tok' hds rfl ⟨pre, e1, e2, rfl, hpre, h1, h2⟩
    refine ⟨ds ++ pre, e1, e2, by simp, ?_, h1, h2⟩
    intro c hc
    rcases List.mem_append.mp hc with hc | hc
    · exact Or.inl (hds c hc)
    · exact hpre c hc
  simp only [matchCapCore] at h
  split at h
  · exact absurd h (by simp)
  · rename_i a1 r1
    split at h
    · rename_i ha1
      split at h
      · -- r1 = []
        split at h
        · rename_i m r' hg
          simp only [Option.some.injEq, Prod.mk.injEq] at h
          obtain ⟨rfl, rfl⟩ := h
          exact mk [a1] m _ (by simpa using ha1) rfl (capGroups_inv hg)
        · exact absurd h (by simp)
      · rename_i a2 r2
        split at h
        · rename_i ha2
          split at h
          · -- r2 = []
            split at h
            · rename_i m r' hg
              simp only [Option.some.injEq, Prod.mk.injEq] at h
              obtain ⟨rfl, rfl⟩ := h
              exact mk [a1, a2] m _
                (by intro c hc; simp only [List.mem_cons, List.not_mem_nil, or_false] at hc
                    rcases hc with rfl | rfl
                    · exact ha1
                    · exact ha2) rfl (capGroups_inv hg)
            · split at h
              · rename_i m r' hg
                simp only [Option.some.injEq, Prod.mk.injEq] at h
                obtain ⟨rfl, rfl⟩ := h
                exact mk [a1] m _ (by simpa using ha1) rfl (capGroups_inv hg)
              · exact absurd h (by simp)
          · rename_i a3 r3
            split at h
            · rename_i ha3
              split at h
              · rename_i m r' hg
                simp only [Option.some.injEq, Prod.mk.injEq] at h
                obtain ⟨rfl, rfl⟩ := h
                exact mk [a1, a2, a3] m _
                  (by intro c hc
                      simp only [List.mem_cons, List.not_mem_nil, or_false] at hc
                      rcases hc with rfl | rfl | rfl
                      · exact ha1
                      · exact ha2
                      · exact ha3) rfl (capGroups_inv hg)
              · split at h
                · rename_i m r' hg
                  simp only [Option.some.injEq, Prod.mk.injEq] at h
                  obtain ⟨rfl, rfl⟩ := h
                  exact mk [a1, a2] m _
                    (by intro c hc
                        simp only [List.mem_cons, List.not_mem_nil, or_false] at hc
                        rcases hc with rfl | rfl
                        · exact ha1
                        · exact ha2) rfl (capGroups_inv hg)
                · split at h
                  · rename_i m r' hg
                    simp only [Option.some.injEq, Prod.mk.injEq] at h
                    obtain ⟨rfl, rfl⟩ := h
                    exact mk [a1] m _ (by simpa using ha1) rfl (capGroups_inv hg)
                  · exact absurd h (by simp)
            · split at h
              · rename_i m r' hg
                simp only [Option.some.injEq, Prod.mk.injEq] at h
                obtain ⟨rfl, rfl⟩ := h
                exact mk [a1, a2] m _
                  (by intro c hc
                      simp only [List.mem_cons, List.not_mem_nil, or_false] at hc
                      rcases hc with rfl | rfl
                      · exact ha1
                      · exact ha2) rfl (capGroups_inv hg)
              · split at h
                · rename_i m r' hg
                  simp only [Option.some.injEq, Prod.mk.injEq] at h
                  obtain ⟨rfl, rfl⟩ := h
                  exact mk [a1] m _ (by simpa using ha1) rfl (capGroups_inv hg)
                · exact absurd h (by simp)
        · split at h
          · rename_i m r' hg
            simp only [Option.some.injEq, Prod.mk.injEq] at h
            obtain ⟨rfl, rfl⟩ := h
            exact mk [a1] m _ (by simpa using ha1) rfl (capGroups_inv hg)
          · exact absurd h (by simp)
    · exact absurd h (by simp)

/-- Every token of `re.findall` for the Capitec space-grouped pattern cleans to
a whole number of hundredths. -/
theorem cap_findAll_cent {line tok : List Char}
    (h : tok ∈ findAll (matchOptMinus matchCapCore) line) :
    isCent (clean_amount ⟨tok⟩ true true) := by
  have hbody : ∀ (c : Char), c.isDigit = true ∨ c = ' ' →
      c.isDigit = true ∨ c = ',' ∨ c = ' ' := by
    intro c hc
    rcases hc with hc | hc
    · exact Or.inl hc
    · exact Or.inr (Or.inr hc)
  refine findAllAux_forall
    (P := fun tok => isCent (clean_amount ⟨tok⟩ true true)) ?_ _ _ _ h
  intro cs t r hm
  rcases matchOptMinus_inv hm with ⟨cs', r', hm'⟩ | ⟨tok', cs', r', rfl, hm'⟩
  · obtain ⟨body, d1, d2, rfl, hb, h1, h2⟩ := matchCapCore_inv hm'
    exact clean_amount_cent_of_token false body d1 d2 (fun c hc => hbody c (hb c hc)) h1 h2
  · obtain ⟨body, d1, d2, rfl, hb, h1, h2⟩ := matchCapCore_inv hm'
    exact clean_amount_cent_of_token true body d1 d2 (fun c hc => hbody c (hb c hc)) h1 h2

/-- Every Capitec amount token (either pattern) cleans to a whole number of
hundredths. -/
theorem capitecAmountsOf_cent {line tok : List Char}
    (h : tok ∈ capitecAmountsOf line) :
    isCent (clean_amount ⟨tok⟩ true true) := by
  simp only [capitecAmountsOf] at h
  split at h
  · exact comma_findAll_cent h
  · exact cap_findAll_cent h

/-- Inversion of `matchStdDate`: the day is one or two digits, the year two. -/
theorem matchStdDate_inv {cs day mon yy rest : List Char}
    (h : matchStdDate cs = some (day, mon, yy, rest)) :
    ((∃ e1, day = [e1] ∧ e1.isDigit = true) ∨
      (∃ e1 e2, day = [e1, e2] ∧ e1.isDigit = true ∧ e2.isDigit = true)) ∧
    ∃ y1 y2, yy = [y1, y2] ∧ y1.isDigit = true ∧ y2.isDigit = true := by
  rcases cs with - | ⟨d1, r1⟩
  · exact absurd h (by simp [matchStdDate])
  · simp only [matchStdDate] at h
    by_cases hd1 : d1.isDigit = true
    · rw [if_pos hd1] at h
      split at h
      · exact absurd h (by simp)
      · rename_i r3 hws
        split at h
        · exact absurd h (by simp)
        · rename_i mon' r4 hmon
          split at h
          · exact absurd h (by simp)
          · rename_i r5 hws2
            split at h
            · rename_i y1 y2 r6
              split at h
              · rename_i hyy
                rw [Bool.and_eq_true] at hyy
                split at h
                · simp only [Option.some.injEq, Prod.mk.injEq] at h
                  obtain ⟨hday, -, hyy2, -⟩ := h
                  refine ⟨?_, y1, y2, hyy2.symm, hyy.1, hyy.2⟩
                  rcases r1 with - | ⟨d2, r2⟩
                  · exact Or.inl ⟨d1, by rw [← hday], hd1⟩
                  · by_cases hd2 : d2.isDigit = true
                    · exact Or.inr ⟨d1, d2, by rw [← hday]; simp [hd2], hd1, hd2⟩
                    · exact Or.inl ⟨d1, by rw [← hday]; simp [hd2], hd1⟩
                · split at h
                  · exact absurd h (by simp)
                  · simp only [Option.some.injEq, Prod.mk.injEq] at h
                    obtain ⟨hday, -, hyy2, -⟩ := h
                    refine ⟨?_, y1, y2, hyy2.symm, hyy.1, hyy.2⟩
                    rcases r1 with - | ⟨d2, r2⟩
                    · exact Or.inl ⟨d1, by rw [← hday], hd1⟩
                    · by_cases hd2 : d2.isDigit = true
                      · exact Or.inr ⟨d1, d2, by rw [← hday]; simp [hd2], hd1, hd2⟩
                      · exact Or.inl ⟨d1, by rw [← hday]; simp [hd2], hd1⟩
              · exact absurd h (by simp)
            · exact absurd h (by simp)
    · rw [if_neg hd1] at h
      exact absurd h (by simp)

/-- `str.zfill(2)` of a one- or two-digit day is two digits. -/
theorem zfill2_digit_shape {day : List Char}
    (h : (∃ e1, day = [e1] ∧ e1.isDigit = true) ∨
      (∃ e1 e2, day = [e1, e2] ∧ e1.isDigit = true ∧ e2.isDigit = true)) :
    ∃ a b, (zfill 2 (⟨day⟩ : String)).data = [a, b] ∧
      a.isDigit = true ∧ b.isDigit = true := by
  rcases h with ⟨d1, rfl, h1⟩ | ⟨d1, d2, rfl, h1, h2⟩
  · refine ⟨'0', d1, ?_, by decide, h1⟩
    have hsign : ¬(d1 = '+' ∨ d1 = '-') := by
      rintro (rfl | rfl) <;> simp at h1
    simp [zfill, hsign, List.replicate]
  · exact ⟨d1, d2, by simp [zfill], h1, h2⟩

/-- The Standard Bank date string `zfill(day)/month_num/20yy` is
`DD/MM/YYYY`-shaped. -/
theorem std_date_shape {day mon yy : List Char}
    (hday : (∃ e1, day = [e1] ∧ e1.isDigit = true) ∨
      (∃ e1 e2, day = [e1, e2] ∧ e1.isDigit = true ∧ e2.isDigit = true))
    (hyy : ∃ y1 y2, yy = [y1, y2] ∧ y1.isDigit = true ∧ y2.isDigit = true) :
    isDDMMYYYY (zfill 2 (⟨day⟩ : String) ++ "/" ++
      ((MONTH_MAP.lookup (⟨mon.map Char.toLower⟩ : String)).getD "01") ++ "/20" ++
      (⟨yy⟩ : String)) = true := by
  obtain ⟨a, b, hab, ha, hb⟩ := zfill2_digit_shape hday
  obtain ⟨x, y, hxy, hx, hy⟩ := month_num_shape ⟨mon.map Char.toLower⟩
  obtain ⟨y1, y2, rfl, hy1, hy2⟩ := hyy
  simp only [isDDMMYYYY, String.data_append, hab, hxy]
  simp [ha, hb, hx, hy, hy1, hy2]

/-- Inversion of `stdParseLine`: the date string is `DD/MM/YYYY`-shaped, the
token list is nonempty, and every token cleans to a whole number of
hundredths. -/
theorem stdParseLine_inv {raw : List Char} {d desc : String}
    {amounts : List (List Char)}
    (h : stdParseLine raw = some (d, desc, amounts)) :
    isDDMMYYYY d = true ∧ amounts ≠ [] ∧
      ∀ tok ∈ amounts, isCent (clean_amount ⟨tok⟩ true true) := by
  simp only [stdParseLine] at h
  split at h
  · exact absurd h (by simp)
  · split at h
    · exact absurd h (by simp)
    · split at h
      · exact absurd h (by simp)
      · split at h
        · exact absurd h (by simp)
        · rename_i day mon yy rest heq
          split at h
          · exact absurd h (by simp)
          · rename_i hlen
            simp only [Option.some.injEq, Prod.mk.injEq] at h
            obtain ⟨hdate, -, hca⟩ := h
            obtain ⟨hday, hyy⟩ := matchStdDate_inv heq
            refine ⟨?_, ?_, ?_⟩
            · rw [← hdate]
              exact std_date_shape hday hyy
            · rw [← hca]
              intro hnil
              rw [hnil] at hlen
              simp at hlen
            · intro tok htok
              rw [← hca] at htok
              exact comma_findAll_cent htok

/-- Both components of `stdResolve` are whole numbers of hundredths whenever
the tokens clean to such. -/
theorem stdResolve_cent {amounts : List (List Char)}
    (htok : ∀ tok ∈ amounts, isCent (clean_amount ⟨tok⟩ true true)) :
    isCent (stdResolve amounts).1 ∧ isCent (stdResolve amounts).2 := by
  by_cases h3 : amounts.length = 3
  · have hp : isCent (clean_amount ⟨amounts.getD 0 []⟩ true true) :=
      htok _ (getD_mem (by omega) [])
    have hd : isCent (clean_amount ⟨amounts.getD 1 []⟩ true true) :=
      htok _ (getD_mem (by omega) [])
    simp only [stdResolve, if_pos h3]
    revert hp hd
    generalize clean_amount ⟨amounts.getD 0 []⟩ true true = P
    generalize clean_amount ⟨amounts.getD 1 []⟩ true true = D
    intro hp hd
    split_ifs <;>
      exact ⟨by first
          | exact isCent_zero
          | exact isCent_abs hp
          | exact isCent_abs hd,
        by first
          | exact isCent_zero
          | exact isCent_abs hp
          | exact isCent_abs hd
          | exact hp
          | exact hd⟩
  · by_cases h2 : amounts.length = 2
    · have hp : isCent (clean_amount ⟨amounts.getD 0 []⟩ true true) :=
        htok _ (getD_mem (by omega) [])
      simp only [stdResolve, if_neg h3, if_pos h2]
      revert hp
      generalize clean_amount ⟨amounts.getD 0 []⟩ true true = P
      intro hp
      split_ifs <;>
        exact ⟨by first
            | exact isCent_zero
            | exact isCent_abs hp,
          by first
            | exact isCent_zero
            | exact isCent_abs hp
            | exact hp⟩
    · simp only [stdResolve, if_neg h3, if_neg h2]
      exact ⟨isCent_zero, isCent_zero⟩

/-- Every row emitted by `stdProcessLine` has a `DD/MM/YYYY` date and
hundredth-valued debit, credit and balance. -/
theorem stdProcessLine_shape {raw : List Char} {r : Row}
    (h : stdProcessLine raw = some r) :
    isDDMMYYYY r.Date = true ∧ isCent r.Debit ∧ isCent r.Credit ∧
      isCent r.Balance := by
  cases hp : stdParseLine raw with
  | none => rw [stdProcessLine, hp] at h; exact absurd h (by simp)
  | some x =>
    obtain ⟨d, desc, amounts⟩ := x
    rw [stdProcessLine, hp] at h
    simp only [Option.map_some', Option.some.injEq] at h
    obtain ⟨hdate, hne, hcent⟩ := stdParseLine_inv hp
    subst h
    exact ⟨hdate, (stdResolve_cent hcent).1, (stdResolve_cent hcent).2,
      hcent _ (getLastD_mem hne [])⟩

/-- Every row of the Standard Bank extractor has a `DD/MM/YYYY` date and
hundredth-valued amounts. -/
theorem stdExtract_shape {pages : List String} {r : Row}
    (h : r ∈ stdExtractTransactions pages) :
    isDDMMYYYY r.Date = true ∧ isCent r.Debit ∧ isCent r.Credit ∧
      isCent r.Balance := by
  rw [stdExtractTransactions] at h
  obtain ⟨l, -, hl⟩ := List.mem_filterMap.mp h
  exact stdProcessLine_shape hl

/-- A passing Capitec date check makes the first ten characters a
`DD/MM/YYYY` string. -/
theorem capitecDateOk_take {cs : List Char} (h : capitecDateOk cs = true) :
    isDDMMYYYY (⟨cs.take 10⟩ : String) = true := by
  unfold capitecDateOk at h
  split at h
  · rename_i a b s1 c d0 s2 e f g hh tail
    have htake : (a :: b :: s1 :: c :: d0 :: s2 :: e :: f :: g :: hh :: tail).take 10 =
        [a, b, s1, c, d0, s2, e, f, g, hh] := rfl
    rw [htake]
    simpa [isDDMMYYYY] using h
  · exact absurd h (by simp)

/-- Inversion of `capitecParseLine`: the date string is `DD/MM/YYYY`-shaped,
the token list is nonempty, and every token cleans to a whole number of
hundredths. -/
theorem capitecParseLine_inv {raw : List Char} {d desc : String}
    {ca : List (List Char)}
    (h : capitecParseLine raw = some (d, desc, ca)) :
    isDDMMYYYY d = true ∧ ca ≠ [] ∧
      ∀ tok ∈ ca, isCent (clean_amount ⟨tok⟩ true true) := by
  simp only [capitecParseLine] at h
  split at h
  · exact absurd h (by simp)
  · split at h
    · exact absurd h (by simp)
    · split at h
      · exact absurd h (by simp)
      · split at h
        · exact absurd h (by simp)
        · rename_i hdok
          split at h
          · exact absurd h (by simp)
          · rename_i hlen
            simp only [Option.some.injEq, Prod.mk.injEq] at h
            obtain ⟨hdate, -, hca⟩ := h
            have hdok' : capitecDateOk (pyStrip raw) = true := by
              simpa using hdok
            refine ⟨?_, ?_, ?_⟩
            · rw [← hdate]
              exact capitecDateOk_take hdok'
            · rw [← hca]
              intro hnil
              rw [hnil] at hlen
              simp at hlen
            · intro tok htok
              rw [← hca] at htok
              exact capitecAmountsOf_cent htok

/-- Both components of `capitecResolve` are whole numbers of hundredths
whenever the carried balance, the line balance and the tokens are. -/
theorem capitecResolve_cent {prev : Option ℚ} {balance : ℚ}
    {amounts : List (List Char)}
    (hprev : ∀ p, prev = some p → isCent p) (hbal : isCent balance)
    (hne : amounts ≠ [])
    (htok : ∀ tok ∈ amounts, isCent (clean_amount ⟨tok⟩ true true)) :
    isCent (capitecResolve prev balance amounts).1 ∧
      isCent (capitecResolve prev balance amounts).2 := by
  have hlen0 : 0 < amounts.length := List.length_pos.mpr hne
  by_cases h4 : 4 ≤ amounts.length
  · have hmi : isCent (clean_amount ⟨amounts.getD (amounts.length - 4) []⟩ true true) :=
      htok _ (getD_mem (by omega) [])
    have hmo : isCent (clean_amount ⟨amounts.getD (amounts.length - 3) []⟩ true true) :=
      htok _ (getD_mem (by omega) [])
    have hfe : isCent (clean_amount ⟨amounts.getD (amounts.length - 2) []⟩ true true) :=
      htok _ (getD_mem (by omega) [])
    simp only [capitecResolve, if_pos h4]
    revert hmi hmo hfe
    generalize clean_amount ⟨amounts.getD (amounts.length - 4) []⟩ true true = MI
    generalize clean_amount ⟨amounts.getD (amounts.length - 3) []⟩ true true = MO
    generalize clean_amount ⟨amounts.getD (amounts.length - 2) []⟩ true true = FE
    intro hmi hmo hfe
    split_ifs <;>
      exact ⟨by first
          | exact isCent_add (isCent_abs hmo) hfe
          | exact isCent_add (isCent_abs hmo) isCent_zero
          | exact isCent_add isCent_zero hfe
          | exact isCent_add isCent_zero isCent_zero,
        by first
          | exact hmi
          | exact isCent_zero⟩
  · by_cases h3 : amounts.length = 3
    · have hf : isCent (clean_amount ⟨amounts.getD 0 []⟩ true true) :=
        htok _ (getD_mem (by omega) [])
      have hs : isCent (clean_amount ⟨amounts.getD 1 []⟩ true true) :=
        htok _ (getD_mem (by omega) [])
      rcases prev with - | p
      · simp only [capitecResolve, if_neg h4, if_pos h3]
        revert hf hs
        generalize clean_amount ⟨amounts.getD 0 []⟩ true true = F
        generalize clean_amount ⟨amounts.getD 1 []⟩ true true = S
        intro hf hs
        split_ifs <;>
          exact ⟨by first
              | exact isCent_zero
              | exact isCent_abs hf
              | exact isCent_add (isCent_abs hf) hs
              | exact isCent_add (isCent_abs hf) isCent_zero,
            by first
              | exact isCent_zero
              | exact hf⟩
      · have hp : isCent p := hprev p rfl
        simp only [capitecResolve, if_neg h4, if_pos h3]
        revert hf hs
        generalize clean_amount ⟨amounts.getD 0 []⟩ true true = F
        generalize clean_amount ⟨amounts.getD 1 []⟩ true true = S
        intro hf hs
        split_ifs <;>
          exact ⟨by first
              | exact isCent_zero
              | exact isCent_abs hf
              | exact isCent_add (isCent_abs hf) hs
              | exact isCent_add (isCent_abs hf) isCent_zero
              | exact isCent_abs (isCent_sub hbal hp),
            by first
              | exact isCent_zero
              | exact hf
              | exact isCent_sub hbal hp⟩
    · have hf : isCent (clean_amount ⟨amounts.getD 0 []⟩ true true) :=
        htok _ (getD_mem (by omega) [])
      rcases prev with - | p
      · simp only [capitecResolve, if_neg h4, if_neg h3]
        revert hf
        generalize clean_amount ⟨amounts.getD 0 []⟩ true true = F
        intro hf
        split_ifs <;>
          exact ⟨by first
              | exact isCent_zero
              | exact isCent_abs hf,
            by first
              | exact isCent_zero
              | exact hf⟩
      · have hp : isCent p := hprev p rfl
        simp only [capitecResolve, if_neg h4, if_neg h3]
        revert hf
        generalize clean_amount ⟨amounts.getD 0 []⟩ true true = F
        intro hf
        split_ifs <;>
          exact ⟨by first
              | exact isCent_zero
              | exact isCent_abs hf
              | exact isCent_abs (isCent_sub hbal hp),
            by first
              | exact isCent_zero
              | exact hf
              | exact isCent_sub hbal hp⟩

/-- Every row emitted by `capitecProcessLine` has a `DD/MM/YYYY` date and
hundredth-valued debit, credit and balance, provided the carried balance is
hundredth-valued. -/
theorem capitecProcessLine_shape {prev : Option ℚ} {l : List Char} {r : Row}
    (hprev : ∀ p, prev = some p → isCent p)
    (h : capitecProcessLine prev l = some r) :
    isDDMMYYYY r.Date = true ∧ isCent r.Debit ∧ isCent r.Credit ∧
      isCent r.Balance := by
  cases hp : capitecParseLine l with
  | none => rw [capitecProcessLine, hp] at h; exact absurd h (by simp)
  | some x =>
    obtain ⟨d, desc, ca⟩ := x
    rw [capitecProcessLine, hp] at h
    simp only [Option.map_some', Option.some.injEq] at h
    obtain ⟨hdate, hne, hcent⟩ := capitecParseLine_inv hp
    subst h
    have hbal : isCent (clean_amount ⟨ca.getLastD []⟩ true true) :=
      hcent _ (getLastD_mem hne [])
    exact ⟨hdate, (capitecResolve_cent hprev hbal hne hcent).1,
      (capitecResolve_cent hprev hbal hne hcent).2, hbal⟩

/-- Induction over the Capitec line loop: the carried previous balance is
always a produced balance, hence hundredth-valued. -/
theorem capitecExtractAux_cent :
    ∀ (lines : List (List Char)) (lb : Option ℚ),
      (∀ b, lb = some b → isCent b) →
      ∀ r ∈ capitecExtractAux lb lines,
        isDDMMYYYY r.Date = true ∧ isCent r.Debit ∧ isCent r.Credit ∧
          isCent r.Balance := by
  intro lines
  induction lines with
  | nil => intro lb _ r hr; simp [capitecExtractAux] at hr
  | cons l rest ih =>
    intro lb hlb r hr
    rw [capitecExtractAux] at hr
    split at hr
    · rename_i r' ho
      rcases List.mem_cons.mp hr with rfl | hr
      · exact capitecProcessLine_shape hlb ho
      · have hr' := capitecProcessLine_shape hlb ho
        exact ih (some r'.Balance)
          (fun b hb => by
            simp only [Option.some.injEq] at hb
            exact hb ▸ hr'.2.2.2) r hr
    · exact ih lb hlb r hr

/-- Concrete evaluation of the Standard Bank extractor on a two-amount line:
the positive first amount becomes the credit. -/
theorem std_fee_line_eval :
    stdExtractTransactions ["02 Feb 25 FEE 20.00 900.00"] =
      [⟨"02/02/2025", "FEE", 0, 20, 900⟩] := by
  have hparse : stdParseLine "02 Feb 25 FEE 20.00 900.00".data =
      some ("02/02/2025", "FEE",
        [['2', '0', '.', '0', '0'], ['9', '0', '0', '.', '0', '0']]) := by decide
  have c1 : clean_amount ⟨['2', '0', '.', '0', '0']⟩ true true = 20 := by
    have e : cleanedAmountChars ⟨['2', '0', '.', '0', '0']⟩ true true =
        ['2', '0', '.', '0', '0'] := by decide
    simp [clean_amount, e, pyFloat, pyFloatCore, pyStrip, digitsVal, isPyWs,
      List.takeWhile, List.dropWhile]
  have c2 : clean_amount ⟨['9', '0', '0', '.', '0', '0']⟩ true true = 900 := by
    have e : cleanedAmountChars ⟨['9', '0', '0', '.', '0', '0']⟩ true true =
        ['9', '0', '0', '.', '0', '0'] := by decide
    simp [clean_amount, e, pyFloat, pyFloatCore, pyStrip, digitsVal, isPyWs,
      List.takeWhile, List.dropWhile]
  have hdoc : docLines ["02 Feb 25 FEE 20.00 900.00"] =
      ["02 Feb 25 FEE 20.00 900.00".data] := by decide
  rw [stdExtractTransactions, hdoc]
  simp only [List.filterMap_cons, List.filterMap_nil, stdProcessLine, hparse,
    Option.map_some']
  norm_num [stdResolve, c1, c2, create_transaction_row, List.getLastD, List.getD]

/-- Concrete evaluation of the Capitec extractor on a two-amount line: the
negative transaction amount becomes the debit. -/
theorem capitec_buy_line_eval :
    capitecExtractTransactions ["01/02/2024 Buy -50.00 100.00"] =
      [⟨"01/02/2024", "Buy", 50, 0, 100⟩] := by
  have hparse : capitecParseLine "01/02/2024 Buy -50.00 100.00".data =
      some ("01/02/2024", "Buy",
        [['-', '5', '0', '.', '0', '0'], ['1', '0', '0', '.', '0', '0']]) := by decide
  have c1 : clean_amount ⟨['-', '5', '0', '.', '0', '0']⟩ true true = -50 := by
    have e : cleanedAmountChars ⟨['-', '5', '0', '.', '0', '0']⟩ true true =
        ['-', '5', '0', '.', '0', '0'] := by decide
    simp [clean_amount, e, pyFloat, pyFloatCore, pyStrip, digitsVal, isPyWs,
      List.takeWhile, List.dropWhile]
  have c2 : clean_amount ⟨['1', '0', '0', '.', '0', '0']⟩ true true = 100 := by
    have e : cleanedAmountChars ⟨['1', '0', '0', '.', '0', '0']⟩ true true =
        ['1', '0', '0', '.', '0', '0'] := by decide
    simp [clean_amount, e, pyFloat, pyFloatCore, pyStrip, digitsVal, isPyWs,
      List.takeWhile, List.dropWhile]
  have hdoc : docLines ["01/02/2024 Buy -50.00 100.00"] =
      ["01/02/2024 Buy -50.00 100.00".data] := by decide
  rw [capitecExtractTransactions, hdoc]
  simp only [capitecExtractAux, capitecProcessLine, hparse, Option.map_some']
  norm_num [capitecResolve, c1, c2, create_transaction_row, List.getLastD,
    List.getD]

/-- **C8** (amended): every transaction produced by the Standard Bank, Capitec
and TymeBank extractors carries a `DD/MM/YYYY` date string and debit, credit
and balance values that are whole numbers of hundredths (two-fractional-digit
decimals); and `create_transaction_row` stores exactly the values it is given.
(Not every extractor serializes dates this way: see the ABSA counterexample.) -/
theorem transactions_serialization :
    (∀ (pages : List String) (r : Row), r ∈ stdExtractTransactions pages →
      isDDMMYYYY r.Date = true ∧ isCent r.Debit ∧ isCent r.Credit ∧
        isCent r.Balance)
  ∧ (∀ (pages : List String) (r : Row), r ∈ capitecExtractTransactions pages →
      isDDMMYYYY r.Date = true ∧ isCent r.Debit ∧ isCent r.Credit ∧
        isCent r.Balance)
  ∧ (∀ (pages : List String) (rows : List Row),
      tymeExtractTransactions pages = some rows →
      ∀ r ∈ rows, isDDMMYYYY r.Date = true ∧ isCent r.Debit ∧ isCent r.Credit ∧
        isCent r.Balance)
  ∧ ∀ (d desc : String) (de cr b : ℚ),
      create_transaction_row d desc de cr b = ⟨d, desc, de, cr, b⟩ :=
  ⟨fun _ _ hr => stdExtract_shape hr,
   fun pages r hr => capitecExtractAux_cent (docLines pages) none (by simp) r hr,
   fun _ rows h => tymeExtractAux_shape _ none rows (by simp) h,
   fun _ _ _ _ _ => rfl⟩

/-- Witness for `transactions_serialization`: concrete rows produced from a
Standard Bank line, a Capitec line and the two-line TymeBank statement of
`tyme_two_line_eval`. -/
theorem transactions_serialization_witness :
    (isDDMMYYYY (⟨"02/02/2025", "FEE", 0, 20, 900⟩ : Row).Date = true ∧
      isCent (⟨"02/02/2025", "FEE", 0, 20, 900⟩ : Row).Debit ∧
      isCent (⟨"02/02/2025", "FEE", 0, 20, 900⟩ : Row).Credit ∧
      isCent (⟨"02/02/2025", "FEE", 0, 20, 900⟩ : Row).Balance)
  ∧ (isDDMMYYYY (⟨"01/02/2024", "Buy", 50, 0, 100⟩ : Row).Date = true ∧
      isCent (⟨"01/02/2024", "Buy", 50, 0, 100⟩ : Row).Debit ∧
      isCent (⟨"01/02/2024", "Buy", 50, 0, 100⟩ : Row).Credit ∧
      isCent (⟨"01/02/2024", "Buy", 50, 0, 100⟩ : Row).Balance)
  ∧ (isDDMMYYYY (⟨"02/01/2024", "Deposit", 0, 250, 1250⟩ : Row).Date = true ∧
      isCent (⟨"02/01/2024", "Deposit", 0, 250, 1250⟩ : Row).Debit ∧
      isCent (⟨"02/01/2024", "Deposit", 0, 250, 1250⟩ : Row).Credit ∧
      isCent (⟨"02/01/2024", "Deposit", 0, 250, 1250⟩ : Row).Balance)
  ∧ create_transaction_row "d" "x" 1 2 3 = ⟨"d", "x", 1, 2, 3⟩ :=
  ⟨transactions_serialization.1 ["02 Feb 25 FEE 20.00 900.00"] _
      (by rw [std_fee_line_eval]; exact List.mem_singleton.mpr rfl),
   transactions_serialization.2.1 ["01/02/2024 Buy -50.00 100.00"] _
      (by rw [capitec_buy_line_eval]; exact List.mem_singleton.mpr rfl),
   transactions_serialization.2.2.1
      ["01 Jan 2024 Opening Balance 1000.00\n02 Jan 2024 Deposit 250.00 1250.00"]
      _ tyme_two_line_eval _
      (List.mem_cons_of_mem _ (List.mem_singleton.mpr rfl)),
   transactions_serialization.2.2.2 "d" "x" 1 2 3⟩

/-- **C8** (counterexample): the ABSA extractor keeps its
`\d{1,2}/\d{1,2}/\d{4}` date match verbatim (absa.py line 86), so the line
`5/3/2024 Fee 100.00` produces a transaction whose date `5/3/2024` is not a
`DD/MM/YYYY` string — not every produced transaction's date has that shape. -/
theorem absa_non_ddmmyyyy_date :
    absaExtractTransactions ["5/3/2024 Fee 100.00"] =
      some [⟨"5/3/2024", "Fee", 0, 0, 100⟩]
  ∧ isDDMMYYYY "5/3/2024" = false := by
  refine ⟨?_, by decide⟩
  have hparse : absaParseLine "5/3/2024 Fee 100.00".data =
      some ("5/3/2024", "Fee", [['1', '0', '0', '.', '0', '0']]) := by decide
  have hf : pyFloat ['1', '0', '0', '.', '0', '0'] = some 100 := by
    simp [pyFloat, pyFloatCore, pyStrip, digitsVal, isPyWs, List.takeWhile,
      List.dropWhile]
  have hp1 : absaProcessLine none "5/3/2024 Fee 100.00".data =
      some (some ⟨"5/3/2024", "Fee", 0, 0, 100⟩) := by
    simp only [absaProcessLine, hparse]
    norm_num [hf, create_transaction_row, List.getLastD]
  have hdoc : docLines ["5/3/2024 Fee 100.00"] =
      ["5/3/2024 Fee 100.00".data] := by decide
  rw [absaExtractTransactions, hdoc]
  simp only [absaExtractAux, hp1]

end BankParser
